import Mathlib

/-! Edge detection on brightness profiles.

A shallow embedding of the edge-detection core of `main.go`
(`ComputeAverages`, `ComputeDeltas`, `DetermineMaximums`, `SortMaximums`,
`OrderMaximums`, `FindZeroPoint`, `FindLowestPoint`, `DetectEdges`) together
with theorems about it.

Modelling conventions.

* A Go slice `[]float64` is a `List ℚ`.  Intensities are treated as exact
  numbers, as in the data model of the specification ("ordered sequence of
  real numbers"); rounding and NaN are outside the model.
* Go `int` indices that can become negative (`FindZeroPoint`,
  `FindLowestPoint`, `Maximum.Index`, the edges) are `Int`.  The one `int`
  operation that can overflow on a slice that fits in memory is the
  subtraction `limit = i - limit` of `FindLowestPoint`, whose operand `limit`
  is a free parameter; it wraps around modulo `2^64` (`wrapInt64`).  The other
  operations (`i + 1`, `i - 1`, `b * 3`, `± Threshold`) act on indices of the
  slice and are exact.
  The block size `n` is a `Nat`; `n = 0` is kept (it panics), negative block
  sizes are outside the model.
* A run-time panic (index out of range, slice bounds out of range, integer
  division by zero) is the result `none`.
* Every `for` loop is a recursive function with the loop variables as
  arguments and the loop guard as the outer `if`.
* `sort.Slice` is a library routine.  The functions that call it take the sort
  as a parameter `sortSlice`, and theorems assume its documented contract
  (`SortSliceContract`): the result is a rearrangement of the input in which no
  later element is `less` than an earlier one.  The library documents that the
  order of equal elements is not guaranteed.  The library routine itself, as
  implemented from Go 1.19 on (`pdqsort_func` and the routines it calls), is
  embedded as `sort.Slice`; on at most 12 elements it is `insertionSort`,
  which meets the contract.  The pseudo-random generator of the library
  (`xorshift`), consulted only by `breakPatterns_func`, is not embedded: its
  step function is the parameter `next`.
-/

namespace Telescope

/-- Fixed pixel margin, `const Threshold = 5`. -/
def Threshold : Int := 5

/-- Local peak of the delta sequence, `type Maximum struct`. -/
structure Maximum where
  Index : Int
  Value : ℚ
deriving DecidableEq, Repr

/-- Slice read `xs[i]` with a Go `int` index; `none` is the index-out-of-range panic. -/
def idx (xs : List ℚ) (i : Int) : Option ℚ :=
  if i < 0 then none else xs[i.toNat]?

/-! ## ComputeAverages -/

/-- Padding loop of `ComputeAverages`:
`for len(p) % n != 0 { p = append(p, p[len(p)-1]) }`. -/
def ComputeAverages.pad (n : Nat) (hn : 0 < n) (p : List ℚ) : Option (List ℚ) :=
  if _h : p.length % n ≠ 0 then
    match idx p ((p.length : Int) - 1) with
    | none => none
    | some x => ComputeAverages.pad n hn (p ++ [x])
  else some p
termination_by (n - p.length % n) % n
decreasing_by
  simp only [List.length_append, List.length_singleton]
  have h1 : p.length % n < n := Nat.mod_lt _ hn
  have h2 : 2 ≤ n := by
    rcases Nat.lt_or_ge n 2 with h3 | h3
    · have h4 : n = 1 := by omega
      subst h4
      exact absurd (Nat.mod_one p.length) _h
    · exact h3
  have h3 : (p.length + 1) % n = (p.length % n + 1) % n := by
    rw [Nat.add_mod, Nat.mod_eq_of_lt (show 1 < n by omega)]
  rw [h3, Nat.mod_eq_of_lt (show n - p.length % n < n by omega)]
  rcases Nat.lt_or_ge (p.length % n + 1) n with h4 | h4
  · rw [Nat.mod_eq_of_lt h4, Nat.mod_eq_of_lt (show n - (p.length % n + 1) < n by omega)]
    omega
  · have h5 : p.length % n + 1 = n := by omega
    rw [h5, Nat.mod_self, Nat.sub_zero, Nat.mod_self]
    omega

/-- Inner summation loop of `ComputeAverages`:
`for j := i; j < i+n; j++ { v += p[j] }`, with `stop = i + n`. -/
def ComputeAverages.inner (p : List ℚ) (stop j : Nat) (v : ℚ) : Option ℚ :=
  if j < stop then
    match p[j]? with
    | none => none
    | some x => ComputeAverages.inner p stop (j + 1) (v + x)
  else some v
termination_by stop - j

/-- Outer loop of `ComputeAverages`:
`for i := 0; i < len(p); i += n { ...; res = append(res, v / float64(n)) }`. -/
def ComputeAverages.loop (n : Nat) (hn : 0 < n) (p : List ℚ) (i : Nat) (res : List ℚ) :
    Option (List ℚ) :=
  if i < p.length then
    match ComputeAverages.inner p (i + n) i 0 with
    | none => none
    | some v => ComputeAverages.loop n hn p (i + n) (res ++ [v / (n : ℚ)])
  else some res
termination_by p.length - i

/-- Block averages, `func ComputeAverages(points []float64, n int) (res []float64)`.
With `n = 0` the first evaluation of `len(p) % n` panics. -/
def ComputeAverages (points : List ℚ) (n : Nat) : Option (List ℚ) :=
  if hn : n = 0 then none
  else
    match ComputeAverages.pad n (Nat.pos_of_ne_zero hn) points with
    | none => none
    | some p => ComputeAverages.loop n (Nat.pos_of_ne_zero hn) p 0 []

/-! ## ComputeDeltas -/

/-- Loop of `ComputeDeltas`:
`for i := 1; i < len(points); i++ { deltas = append(deltas, points[i]-p); p = points[i] }`. -/
def ComputeDeltas.loop (points : List ℚ) (i : Nat) (p : ℚ) (deltas : List ℚ) : List ℚ :=
  if h : i < points.length then
    ComputeDeltas.loop points (i + 1) points[i] (deltas ++ [points[i] - p])
  else deltas
termination_by points.length - i

/-- Forward differences, `func ComputeDeltas(points []float64) (deltas []float64)`.
The first statement `p := points[0]` panics on an empty slice. -/
def ComputeDeltas (points : List ℚ) : Option (List ℚ) :=
  match idx points 0 with
  | none => none
  | some p => some (ComputeDeltas.loop points 1 p [])

/-! ## DetermineMaximums -/

/-- Loop of `DetermineMaximums`: `for i := 1; i < len(deltas)-1; i++ { ... }`.
The guard `i < len(deltas)-1` is `i + 1 < len(deltas)`; the loop starts at 1,
so `i - 1` never goes below 0. -/
def DetermineMaximums.loop (deltas : List ℚ) (i : Nat) (maximums : List Maximum) :
    List Maximum :=
  if h : i + 1 < deltas.length then
    if deltas[i] > deltas[i - 1] ∧ deltas[i] > deltas[i + 1] then
      DetermineMaximums.loop deltas (i + 1) (maximums ++ [⟨(i : Int), deltas[i]⟩])
    else
      DetermineMaximums.loop deltas (i + 1) maximums
  else maximums
termination_by deltas.length - i

/-- Strict interior local maxima,
`func DetermineMaximums(deltas []float64) (maximums []Maximum)`. -/
def DetermineMaximums (deltas : List ℚ) : List Maximum :=
  DetermineMaximums.loop deltas 1 []

/-! ## sort.Slice, SortMaximums, OrderMaximums -/

/-- Requirement that `sort.Slice` puts on its `less` argument: a transitive
ordering (both `less` and "neither is less" are transitive) that is irreflexive. -/
def LessOK (less : Maximum → Maximum → Bool) : Prop :=
  (∀ a, less a a = false) ∧
  (∀ a b c, less a b = true → less b c = true → less a c = true) ∧
  (∀ a b c, less a b = false → less b c = false → less a c = false)

/-- Documented contract of the library routine `sort.Slice`: the slice is
rearranged (a permutation of the old contents) and, for a `less` that meets
`LessOK`, no element is `less` than an element placed before it.  Nothing is
promised about the relative order of elements neither of which is `less` than the
other ("the sort is not guaranteed to be stable"). -/
def SortSliceContract (sortSlice : (Maximum → Maximum → Bool) → List Maximum → List Maximum) :
    Prop :=
  ∀ less xs, (sortSlice less xs).Perm xs ∧
    (LessOK less → (sortSlice less xs).Pairwise (fun a b => less b a = false))

/-- Comparison closure of `SortMaximums`: `maximums[i].Value > maximums[j].Value`. -/
def SortMaximums.less (a b : Maximum) : Bool := decide (a.Value > b.Value)

/-- Comparison closure of `OrderMaximums`: `maximums[i].Index < maximums[j].Index`. -/
def OrderMaximums.less (a b : Maximum) : Bool := decide (a.Index < b.Index)

/-- Sort by value, descending: `func SortMaximums(maximums []Maximum)`.
The in-place sort is a function from the old to the new slice contents. -/
def SortMaximums (sortSlice : (Maximum → Maximum → Bool) → List Maximum → List Maximum)
    (maximums : List Maximum) : List Maximum :=
  sortSlice SortMaximums.less maximums

/-- Sort by index, ascending: `func OrderMaximums(maximums []Maximum)`. -/
def OrderMaximums (sortSlice : (Maximum → Maximum → Bool) → List Maximum → List Maximum)
    (maximums : List Maximum) : List Maximum :=
  sortSlice OrderMaximums.less maximums

/-! ## Library sorting routines

`sort.Slice` as implemented in the Go standard library from release 1.19 on
(`sort/slice.go`, `sort/zsortfunc.go`).  A slice is a `List Maximum`, positions are natural
numbers, and a routine that works in place returns the new slice contents. -/

/-- Inner loop of the library routine `insertionSort_func`,
`for j := i; j > a && less(j, j-1); j-- { swap(j, j-1) }`: the element `x` moves left
past every neighbour it is `less` than.  The part of the slice before `x` is given
nearest neighbour first. -/
def insertionSort.insert (less : Maximum → Maximum → Bool) (x : Maximum) : List Maximum → List Maximum
  | [] => [x]
  | y :: before => if less x y then y :: insertionSort.insert less x before else x :: y :: before

/-- Outer loop of the library routine `insertionSort_func`, `for i := a + 1; i < b; i++`:
`before` is the part already processed (nearest neighbour first), the second list is
the part still to be inserted. -/
def insertionSort.loop (less : Maximum → Maximum → Bool) : List Maximum → List Maximum → List Maximum
  | before, [] => before.reverse
  | before, x :: rest => insertionSort.loop less (insertionSort.insert less x before) rest

/-- Library routine `insertionSort_func` on a whole slice. -/
def insertionSort (less : Maximum → Maximum → Bool) (data : List Maximum) : List Maximum :=
  insertionSort.loop less [] data

/-- Slice element exchange `data.Swap(i, j)`. -/
def swap (data : List Maximum) (i j : Nat) : List Maximum :=
  match data[i]?, data[j]? with
  | some a, some b => (data.set i b).set j a
  | _, _ => data

/-- Comparison `data.Less(i, j)` of the library type `lessSwap`: the closure `less` on the
elements at positions `i` and `j`.  The library passes only positions inside the slice. -/
def lessAt (less : Maximum → Maximum → Bool) (data : List Maximum) (i j : Nat) : Bool :=
  match data[i]?, data[j]? with
  | some a, some b => less a b
  | _, _ => false

/-- Library function `bits.Len`: the number of bits needed to write `n`. -/
def bitsLen (n : Nat) : Nat :=
  if _h : n = 0 then 0 else bitsLen (n / 2) + 1
termination_by n
decreasing_by omega

/-- Library type `sortedHint`. -/
inductive sortedHint where
  | unknownHint
  | increasingHint
  | decreasingHint
deriving DecidableEq, Repr

/-- Library routine `insertionSort_func(data, a, b)`: insertion sort of `data[a:b]`. -/
def insertionSort_func (less : Maximum → Maximum → Bool) (data : List Maximum) (a b : Nat) :
    List Maximum :=
  data.take a ++ insertionSort less ((data.drop a).take (b - a)) ++ data.drop b

/-- Loop of the library routine `siftDown_func(data, lo, hi, first)`, with `root` as the
loop variable:
`for { child := 2*root + 1; if child >= hi { return };
  if child+1 < hi && less(first+child, first+child+1) { child++ };
  if !less(first+root, first+child) { return };
  swap(first+root, first+child); root = child }`. -/
def siftDown_func (less : Maximum → Maximum → Bool) (data : List Maximum) (root hi first : Nat) :
    List Maximum :=
  if _h : 2 * root + 1 ≥ hi then data
  else
    let child :=
      if 2 * root + 1 + 1 < hi ∧ lessAt less data (first + (2 * root + 1)) (first + (2 * root + 1) + 1)
      then 2 * root + 1 + 1 else 2 * root + 1
    if ¬ lessAt less data (first + root) (first + child) then data
    else siftDown_func less (swap data (first + root) (first + child)) child hi first
termination_by hi - root
decreasing_by
  split <;> omega

/-- First loop of `heapSort_func`: `for i := (hi - 1) / 2; i >= 0; i-- { siftDown(i, hi, first) }`;
the argument is `i + 1`. -/
def heapSort_func.build (less : Maximum → Maximum → Bool) (hi first : Nat) :
    Nat → List Maximum → List Maximum
  | 0, data => data
  | i + 1, data => heapSort_func.build less hi first i (siftDown_func less data i hi first)

/-- Second loop of `heapSort_func`:
`for i := hi - 1; i >= 0; i-- { swap(first, first+i); siftDown(lo, i, first) }` with `lo = 0`;
the argument is `i + 1`. -/
def heapSort_func.pop (less : Maximum → Maximum → Bool) (first : Nat) :
    Nat → List Maximum → List Maximum
  | 0, data => data
  | i + 1, data =>
    heapSort_func.pop less first i (siftDown_func less (swap data first (first + i)) 0 i first)

/-- Library routine `heapSort_func(data, a, b)`. -/
def heapSort_func (less : Maximum → Maximum → Bool) (data : List Maximum) (a b : Nat) :
    List Maximum :=
  heapSort_func.pop less a (b - a)
    (heapSort_func.build less (b - a) a ((b - a - 1) / 2 + 1) data)

/-- Library routine `order2_func(data, a, b, swaps)`: the two positions in order, and the
updated swap counter. -/
def order2_func (less : Maximum → Maximum → Bool) (data : List Maximum) (a b swaps : Nat) :
    Nat × Nat × Nat :=
  if lessAt less data b a then (b, a, swaps + 1) else (a, b, swaps)

/-- Library routine `median_func(data, a, b, c, swaps)`: the position of the median of three,
and the updated swap counter. -/
def median_func (less : Maximum → Maximum → Bool) (data : List Maximum) (a b c swaps : Nat) :
    Nat × Nat :=
  let (a, b, swaps) := order2_func less data a b swaps
  let (b, _, swaps) := order2_func less data b c swaps
  let (_, b, swaps) := order2_func less data a b swaps
  (b, swaps)

/-- Library routine `medianAdjacent_func(data, a, swaps)`. -/
def medianAdjacent_func (less : Maximum → Maximum → Bool) (data : List Maximum) (a swaps : Nat) :
    Nat × Nat :=
  median_func less data (a - 1) a (a + 1) swaps

/-- Library routine `choosePivot_func(data, a, b)`, with `shortestNinther = 50` and
`maxSwaps = 4 * 3`. -/
def choosePivot_func (less : Maximum → Maximum → Bool) (data : List Maximum) (a b : Nat) :
    Nat × sortedHint :=
  let l := b - a
  let i := a + l / 4 * 1
  let j := a + l / 4 * 2
  let k := a + l / 4 * 3
  let (j, swaps) :=
    if l ≥ 8 then
      if l ≥ 50 then
        let (i, swaps) := medianAdjacent_func less data i 0
        let (j, swaps) := medianAdjacent_func less data j swaps
        let (k, swaps) := medianAdjacent_func less data k swaps
        median_func less data i j k swaps
      else median_func less data i j k 0
    else (j, 0)
  if swaps = 0 then (j, sortedHint.increasingHint)
  else if swaps = 4 * 3 then (j, sortedHint.decreasingHint)
  else (j, sortedHint.unknownHint)

/-- Loop of the library routine `reverseRange_func`:
`for i < j { swap(i, j); i++; j-- }`. -/
def reverseRange_func.loop (data : List Maximum) (i j : Nat) : List Maximum :=
  if i < j then reverseRange_func.loop (swap data i j) (i + 1) (j - 1) else data
termination_by j - i

/-- Library routine `reverseRange_func(data, a, b)`. -/
def reverseRange_func (data : List Maximum) (a b : Nat) : List Maximum :=
  reverseRange_func.loop data a (b - 1)

/-- Scan of `partialInsertionSort_func`: `for i < b && !less(i, i-1) { i++ }`. -/
def partialInsertionSort_func.scan (less : Maximum → Maximum → Bool) (data : List Maximum)
    (b i : Nat) : Nat :=
  if i < b ∧ ¬ lessAt less data i (i - 1) then
    partialInsertionSort_func.scan less data b (i + 1)
  else i
termination_by b - i

/-- Left shift of `partialInsertionSort_func`:
`for j := i - 1; j >= 1; j-- { if !less(j, j-1) { break }; swap(j, j-1) }`; the argument
is `j`. -/
def partialInsertionSort_func.shiftLeft (less : Maximum → Maximum → Bool) :
    Nat → List Maximum → List Maximum
  | 0, data => data
  | j + 1, data =>
    if ¬ lessAt less data (j + 1) j then data
    else partialInsertionSort_func.shiftLeft less j (swap data (j + 1) j)

/-- Right shift of `partialInsertionSort_func`:
`for j := i + 1; j < b; j++ { if !less(j, j-1) { break }; swap(j, j-1) }`. -/
def partialInsertionSort_func.shiftRight (less : Maximum → Maximum → Bool) (b : Nat)
    (data : List Maximum) (j : Nat) : List Maximum :=
  if j < b then
    if ¬ lessAt less data j (j - 1) then data
    else partialInsertionSort_func.shiftRight less b (swap data j (j - 1)) (j + 1)
  else data
termination_by b - j
decreasing_by omega

/-- Outer loop of `partialInsertionSort_func`, `for j := 0; j < maxSteps; j++`, with
`maxSteps = 5` and `shortestShifting = 50`; the first argument is the number of steps
left. -/
def partialInsertionSort_func.loop (less : Maximum → Maximum → Bool) (a b : Nat) :
    Nat → List Maximum → Nat → List Maximum × Bool
  | 0, data, _ => (data, false)
  | steps + 1, data, i =>
    let i := partialInsertionSort_func.scan less data b i
    if i = b then (data, true)
    else if b - a < 50 then (data, false)
    else
      let data := swap data i (i - 1)
      let data := if i - a ≥ 2 then partialInsertionSort_func.shiftLeft less (i - 1) data else data
      let data :=
        if b - i ≥ 2 then partialInsertionSort_func.shiftRight less b data (i + 1) else data
      partialInsertionSort_func.loop less a b steps data i

/-- Library routine `partialInsertionSort_func(data, a, b)`: the slice contents afterwards
and whether the range is sorted. -/
def partialInsertionSort_func (less : Maximum → Maximum → Bool) (data : List Maximum)
    (a b : Nat) : List Maximum × Bool :=
  partialInsertionSort_func.loop less a b 5 data (a + 1)

/-- Loop of the library routine `breakPatterns_func`,
`for i := 0; i < 3; i++ { other := int(uint(random.Next()) & (modulus - 1));
  if other >= length { other -= length }; swap(idx-1+i, a+other) }`.
The first argument counts the iterations left; `next` is the step of the pseudo-random
generator `xorshift`. -/
def breakPatterns_func.loop (next : Nat → Nat) (a length modulus idx : Nat) :
    Nat → Nat → Nat → List Maximum → List Maximum
  | 0, _, _, data => data
  | steps + 1, i, random, data =>
    let random := next random
    let other := random % modulus
    let other := if other ≥ length then other - length else other
    breakPatterns_func.loop next a length modulus idx steps (i + 1) random
      (swap data (idx - 1 + i) (a + other))

/-- Library routine `breakPatterns_func(data, a, b)`, with
`modulus = nextPowerOfTwo(length) = 1 << bits.Len(length)`. -/
def breakPatterns_func (next : Nat → Nat) (data : List Maximum) (a b : Nat) : List Maximum :=
  let length := b - a
  if length ≥ 8 then
    breakPatterns_func.loop next a length (2 ^ bitsLen length) (a + (length / 4) * 2 - 1)
      3 0 length data
  else data

/-- Scan `for i <= j && less(i, a) { i++ }` of `partition_func`.  The index `j` is an
`Int`: it can drop to `i - 1`. -/
def partition_func.scanI (less : Maximum → Maximum → Bool) (data : List Maximum) (a : Nat)
    (j : Int) (i : Nat) : Nat :=
  if (i : Int) ≤ j ∧ lessAt less data i a then partition_func.scanI less data a j (i + 1)
  else i
termination_by (j + 1 - i).toNat
decreasing_by omega

/-- Scan `for i <= j && !less(j, a) { j-- }` of `partition_func`. -/
def partition_func.scanJ (less : Maximum → Maximum → Bool) (data : List Maximum) (a i : Nat)
    (j : Int) : Int :=
  if (i : Int) ≤ j ∧ ¬ lessAt less data j.toNat a then partition_func.scanJ less data a i (j - 1)
  else j
termination_by (j + 1).toNat
decreasing_by omega

/-- Main loop of `partition_func`:
`for { scans; if i > j { break }; swap(i, j); i++; j-- }`.  The first argument bounds the
number of iterations; every iteration advances `i`, so the length of the range suffices. -/
def partition_func.loop (less : Maximum → Maximum → Bool) (a : Nat) :
    Nat → List Maximum → Nat → Int → List Maximum × Int
  | 0, data, _, j => (data, j)
  | fuel + 1, data, i, j =>
    let i := partition_func.scanI less data a j i
    let j := partition_func.scanJ less data a i j
    if (i : Int) > j then (data, j)
    else partition_func.loop less a fuel (swap data i j.toNat) (i + 1) (j - 1)

/-- Library routine `partition_func(data, a, b, pivot)`: the slice contents afterwards, the
new position of the pivot, and whether the range was already partitioned. -/
def partition_func (less : Maximum → Maximum → Bool) (data : List Maximum) (a b pivot : Nat) :
    List Maximum × Nat × Bool :=
  let data := swap data a pivot
  let i := partition_func.scanI less data a ((b : Int) - 1) (a + 1)
  let j := partition_func.scanJ less data a i ((b : Int) - 1)
  if (i : Int) > j then (swap data j.toNat a, j.toNat, true)
  else
    let (data, j) := partition_func.loop less a (b - a) (swap data i j.toNat) (i + 1) (j - 1)
    (swap data j.toNat a, j.toNat, false)

/-- Scan `for i <= j && !less(a, i) { i++ }` of `partitionEqual_func`. -/
def partitionEqual_func.scanI (less : Maximum → Maximum → Bool) (data : List Maximum) (a : Nat)
    (j : Int) (i : Nat) : Nat :=
  if (i : Int) ≤ j ∧ ¬ lessAt less data a i then partitionEqual_func.scanI less data a j (i + 1)
  else i
termination_by (j + 1 - i).toNat
decreasing_by omega

/-- Scan `for i <= j && less(a, j) { j-- }` of `partitionEqual_func`. -/
def partitionEqual_func.scanJ (less : Maximum → Maximum → Bool) (data : List Maximum) (a i : Nat)
    (j : Int) : Int :=
  if (i : Int) ≤ j ∧ lessAt less data a j.toNat then partitionEqual_func.scanJ less data a i (j - 1)
  else j
termination_by (j + 1).toNat
decreasing_by omega

/-- Main loop of `partitionEqual_func`:
`for { scans; if i > j { break }; swap(i, j); i++; j-- }`, returning the slice contents and
`i`.  The first argument bounds the number of iterations. -/
def partitionEqual_func.loop (less : Maximum → Maximum → Bool) (a : Nat) :
    Nat → List Maximum → Nat → Int → List Maximum × Nat
  | 0, data, i, _ => (data, i)
  | fuel + 1, data, i, j =>
    let i := partitionEqual_func.scanI less data a j i
    let j := partitionEqual_func.scanJ less data a i j
    if (i : Int) > j then (data, i)
    else partitionEqual_func.loop less a fuel (swap data i j.toNat) (i + 1) (j - 1)

/-- Library routine `partitionEqual_func(data, a, b, pivot)`. -/
def partitionEqual_func (less : Maximum → Maximum → Bool) (data : List Maximum)
    (a b pivot : Nat) : List Maximum × Nat :=
  partitionEqual_func.loop less a (b - a + 1) (swap data a pivot) (a + 1) ((b : Int) - 1)

/-- Library routine `pdqsort_func(data, a, b, limit)` with `maxInsertion = 12`.  The loop
`for { ... }` of the routine is the recursion; its variables `wasBalanced` and
`wasPartitioned` are arguments, `true` at every call of the routine.  The first argument
bounds the depth of the recursion: every pass of the loop and every recursive call works on
a shorter range, so the length of the range plus one suffices. -/
def pdqsort_func (next : Nat → Nat) (less : Maximum → Maximum → Bool) :
    Nat → List Maximum → Nat → Nat → Nat → Bool → Bool → List Maximum
  | 0, data, _, _, _, _, _ => data
  | fuel + 1, data, a, b, limit, wasBalanced, wasPartitioned =>
    let length := b - a
    if length ≤ 12 then insertionSort_func less data a b
    else if limit = 0 then heapSort_func less data a b
    else
      let data := if wasBalanced then data else breakPatterns_func next data a b
      let limit := if wasBalanced then limit else limit - 1
      let (pivot, hint) := choosePivot_func less data a b
      let data :=
        if hint = sortedHint.decreasingHint then reverseRange_func data a b else data
      let pivot := if hint = sortedHint.decreasingHint then (b - 1) - (pivot - a) else pivot
      let hint :=
        if hint = sortedHint.decreasingHint then sortedHint.increasingHint else hint
      let (data, sorted) :=
        if wasBalanced ∧ wasPartitioned ∧ hint = sortedHint.increasingHint then
          partialInsertionSort_func less data a b
        else (data, false)
      if sorted then data
      else if a > 0 ∧ ¬ lessAt less data (a - 1) pivot then
        let (data, mid) := partitionEqual_func less data a b pivot
        pdqsort_func next less fuel data mid b limit wasBalanced wasPartitioned
      else
        let (data, mid, alreadyPartitioned) := partition_func less data a b pivot
        let leftLen := mid - a
        let rightLen := b - mid
        let balanceThreshold := length / 8
        if leftLen < rightLen then
          let data := pdqsort_func next less fuel data a mid limit true true
          pdqsort_func next less fuel data (mid + 1) b limit
            (decide (leftLen ≥ balanceThreshold)) alreadyPartitioned
        else
          let data := pdqsort_func next less fuel data (mid + 1) b limit true true
          pdqsort_func next less fuel data a mid limit
            (decide (rightLen ≥ balanceThreshold)) alreadyPartitioned

/-- Library routine `sort.Slice(x, less)` of the Go standard library from release 1.19 on:
`pdqsort_func(lessSwap{less, swap}, 0, length, bits.Len(uint(length)))`. -/
def sort.Slice (next : Nat → Nat) (less : Maximum → Maximum → Bool) (data : List Maximum) :
    List Maximum :=
  pdqsort_func next less (data.length + 1) data 0 data.length (bitsLen data.length) true true

/-! ## FindZeroPoint, FindLowestPoint -/

/-- Backward walk to the preceding negative delta,
`func FindZeroPoint(deltas []float64, i int) int`. -/
def FindZeroPoint (deltas : List ℚ) (i : Int) : Option Int :=
  if _h : i > 0 then
    match idx deltas i with
    | none => none
    | some d => if d < 0 then some (i + 1) else FindZeroPoint deltas (i - 1)
  else some i
termination_by i.toNat
decreasing_by omega

/-- Loop of `FindLowestPoint`:
`for ; i > limit && i >= 0; i-- { if values[i] < min { min = values[i]; j = i } }`,
where `limit` is already the lower bound `i - limit`. -/
def FindLowestPoint.loop (values : List ℚ) (limit : Int) (i : Int) (min : ℚ) (j : Int) :
    Option Int :=
  if _h : i > limit ∧ i ≥ 0 then
    match idx values i with
    | none => none
    | some v =>
      if v < min then FindLowestPoint.loop values limit (i - 1) v i
      else FindLowestPoint.loop values limit (i - 1) min j
  else some j
termination_by (i + 1).toNat
decreasing_by all_goals omega

/-- Result of a Go `int` operation whose exact value is `x`: `int` is 64 bits wide
(two's complement) and arithmetic wraps around silently. -/
def wrapInt64 (x : Int) : Int :=
  (x + 9223372036854775808) % 18446744073709551616 - 9223372036854775808

/-- Range of the Go type `int`, `-2^63 .. 2^63 - 1`. -/
def isInt64 (x : Int) : Bool :=
  decide (-9223372036854775808 ≤ x ∧ x ≤ 9223372036854775807)

/-- Statement `limit = i - limit` of `FindLowestPoint`: the new lower bound of the
search.  The subtraction of two `int` values wraps around.  Arguments outside the range of
`int` cannot be passed by any caller; for them the difference is left exact. -/
def FindLowestPoint.limit (i limit : Int) : Int :=
  if isInt64 i ∧ isInt64 limit then wrapInt64 (i - limit) else i - limit

/-- Bounded backward search for the lowest value,
`func FindLowestPoint(values []float64, i int, limit int) int`. -/
def FindLowestPoint (values : List ℚ) (i : Int) (limit : Int) : Option Int :=
  match idx values i with
  | none => none
  | some min => FindLowestPoint.loop values (FindLowestPoint.limit i limit) (i - 1) min i

/-! ## DetectEdges -/

/-- Lines 122 to 125 of `DetectEdges`: the candidates sorted by value, the
reslice `m := max[:3]`, and the reorder by index.  A slice built by `append`
from `nil` with fewer than 3 elements has capacity below 3, so the reslice
panics exactly when fewer than 3 candidates exist. -/
def DetectEdges.m (sortSlice : (Maximum → Maximum → Bool) → List Maximum → List Maximum)
    (deltas : List ℚ) : Option (List Maximum) :=
  let max := SortMaximums sortSlice (DetermineMaximums deltas)
  if max.length < 3 then none
  else some (OrderMaximums sortSlice (max.take 3))

/-- Four boundary coordinates of a profile,
`func DetectEdges(points []float64, n int, limit int) (edge1, edge2, edge3, edge4 int)`.
The start index of each local-minimum search is `b * 3` as written in the source. -/
def DetectEdges (sortSlice : (Maximum → Maximum → Bool) → List Maximum → List Maximum)
    (points : List ℚ) (n : Nat) (limit : Int) : Option (Int × Int × Int × Int) := do
  let avg ← ComputeAverages points n
  let deltas ← ComputeDeltas avg
  let m ← DetectEdges.m sortSlice deltas
  let m0 ← m[0]?
  let b1 ← FindZeroPoint deltas m0.Index
  let r1 ← FindLowestPoint points (b1 * 3) limit
  let edge1 := r1 + Threshold
  let m1 ← m[1]?
  let b2 ← FindZeroPoint deltas m1.Index
  let _edge2 ← FindLowestPoint points (b2 * 3) limit
  let edge2 := _edge2 - Threshold
  let edge3 := _edge2 + Threshold
  let m2 ← m[2]?
  let b3 ← FindZeroPoint deltas m2.Index
  let r3 ← FindLowestPoint points (b3 * 3) limit
  let edge4 := r3 - Threshold
  return (edge1, edge2, edge3, edge4)

/-! ## Test profile of the end-to-end scenario -/

/-- Number of copies of the last value that the padding loop appends. -/
def padCount (len n : Nat) : Nat := (n - len % n) % n

/-- Contents of the working copy `p` after the padding loop. -/
def padded (p : List ℚ) (n : Nat) : List ℚ :=
  p ++ List.replicate (padCount p.length n) (p.getLastD 0)

/-! # Theorems -/

/-! ## Slice reads -/

theorem idx_natCast (xs : List ℚ) (i : Nat) : idx xs (i : Int) = xs[i]? := by
  simp [idx]

theorem idx_last (p : List ℚ) (h : p ≠ []) :
    idx p ((p.length : Int) - 1) = some (p.getLast h) := by
  have hl : 0 < p.length := List.length_pos.mpr h
  have h1 : ((p.length : Int) - 1) = ((p.length - 1 : Nat) : Int) := by omega
  rw [h1, idx_natCast, List.getLast_eq_getElem]
  exact List.getElem?_eq_getElem _

/-! ## ComputeAverages: the loops in closed form -/

theorem padCount_of_mod_eq_zero (len n : Nat) (h : len % n = 0) : padCount len n = 0 := by
  simp [padCount, h]

theorem padCount_of_mod_ne_zero (len n : Nat) (hn : 0 < n) (h : len % n ≠ 0) :
    padCount len n = n - len % n := by
  have h1 : len % n < n := Nat.mod_lt _ hn
  exact Nat.mod_eq_of_lt (by omega)

theorem succ_mod_cases (len n : Nat) (hn : 0 < n) (h : len % n ≠ 0) :
    (len % n + 1 < n ∧ (len + 1) % n = len % n + 1) ∨
    (len % n + 1 = n ∧ (len + 1) % n = 0) := by
  have h1 : len % n < n := Nat.mod_lt _ hn
  have h2 : 1 < n := by
    rcases Nat.lt_or_ge 1 n with h3 | h3
    · exact h3
    · have h4 : n = 1 := by omega
      subst h4
      omega
  have h3 : (len + 1) % n = (len % n + 1) % n := by
    rw [Nat.add_mod, Nat.mod_eq_of_lt h2]
  rcases Nat.lt_or_ge (len % n + 1) n with h4 | h4
  · left
    exact ⟨h4, by rw [h3, Nat.mod_eq_of_lt h4]⟩
  · right
    have h5 : len % n + 1 = n := by omega
    exact ⟨h5, by rw [h3, h5, Nat.mod_self]⟩

theorem padCount_succ (len n : Nat) (hn : 0 < n) (h : len % n ≠ 0) :
    padCount len n = padCount (len + 1) n + 1 := by
  rw [padCount_of_mod_ne_zero len n hn h]
  rcases succ_mod_cases len n hn h with ⟨h1, h2⟩ | ⟨h1, h2⟩
  · rw [padCount_of_mod_ne_zero (len + 1) n hn (by omega), h2]
    omega
  · rw [padCount_of_mod_eq_zero (len + 1) n h2]
    omega

theorem pad_eq (n : Nat) (hn : 0 < n) (p : List ℚ) :
    ComputeAverages.pad n hn p
      = some (p ++ List.replicate (padCount p.length n) (p.getLastD 0)) := by
  induction p using ComputeAverages.pad.induct n hn with
  | case1 p h hnone =>
    have hp : p ≠ [] := by
      rintro rfl
      simp at h
    rw [idx_last p hp] at hnone
    cases hnone
  | case2 p h x hx ih =>
    have hp : p ≠ [] := by
      rintro rfl
      simp at h
    rw [idx_last p hp] at hx
    cases hx
    rw [ComputeAverages.pad, dif_pos h, idx_last p hp]
    simp only
    rw [ih, padCount_succ p.length n hn h]
    simp [List.replicate_succ, List.getLastD_eq_getLast?, List.getLast?_eq_getLast _ hp]
  | case3 p h =>
    rw [ComputeAverages.pad, dif_neg h, padCount_of_mod_eq_zero _ _ (by simpa using h)]
    simp

theorem inner_eq (p : List ℚ) (stop j : Nat) (v : ℚ) (hs : stop ≤ p.length) :
    ComputeAverages.inner p stop j v = some (v + ((p.drop j).take (stop - j)).sum) := by
  induction j, v using ComputeAverages.inner.induct p stop with
  | case1 j v hj hnone =>
    rw [List.getElem?_eq_none_iff] at hnone
    omega
  | case2 j v hj x hx ih =>
    rw [ComputeAverages.inner, if_pos hj, hx]
    simp only
    rw [ih]
    have hlt : j < p.length := by omega
    rw [List.getElem?_eq_getElem hlt] at hx
    cases hx
    have h1 : stop - j = (stop - (j + 1)) + 1 := by omega
    rw [h1, List.drop_eq_getElem_cons hlt, List.take_succ_cons, List.sum_cons, add_assoc]
  | case3 j v hj =>
    rw [ComputeAverages.inner, if_neg hj]
    have h1 : stop - j = 0 := by omega
    simp [h1]

theorem loop_eq (n : Nat) (hn : 0 < n) (q : List ℚ) (i : Nat) (res : List ℚ) (k : Nat)
    (hk : q.length = i + k * n) :
    ComputeAverages.loop n hn q i res
      = some (res ++ (List.range k).map
          (fun t => ((q.drop (i + t * n)).take n).sum / (n : ℚ))) := by
  induction i, res using ComputeAverages.loop.induct n hn q generalizing k with
  | case1 i res hi hnone =>
    have hk1 : 1 ≤ k := by
      rcases Nat.eq_zero_or_pos k with h0 | h0
      · subst h0; omega
      · exact h0
    have : i + n ≤ q.length := by
      rw [hk]; nlinarith
    rw [inner_eq q (i + n) i 0 this] at hnone
    cases hnone
  | case2 i res hi x hx ih =>
    obtain ⟨k, rfl⟩ : ∃ k2, k = k2 + 1 := by
      rcases Nat.eq_zero_or_pos k with h0 | h0
      · subst h0; omega
      · exact ⟨k - 1, by omega⟩
    have hle : i + n ≤ q.length := by
      rw [hk]; nlinarith
    rw [inner_eq q (i + n) i 0 hle] at hx
    cases hx
    rw [ComputeAverages.loop, if_pos hi, inner_eq q (i + n) i 0 hle]
    simp only
    rw [ih k (by rw [hk]; ring)]
    rw [List.range_succ_eq_map, List.map_cons, List.map_map]
    simp only [List.append_assoc, List.singleton_append, zero_add, Nat.add_sub_cancel_left,
      Nat.zero_mul, Nat.add_zero]
    congr 3
    apply List.map_congr_left
    intro t _
    simp only [Function.comp, Nat.succ_eq_add_one]
    rw [show i + (t + 1) * n = i + n + t * n by ring]
  | case3 i res hi =>
    have hk0 : k = 0 := by
      rcases Nat.eq_zero_or_pos k with h0 | h0
      · exact h0
      · have : n ≤ k * n := Nat.le_mul_of_pos_left n h0
        omega
    subst hk0
    rw [ComputeAverages.loop, if_neg hi]
    simp

theorem padded_length_eq (len n : Nat) (hn : 0 < n) :
    ∃ c, len + padCount len n = c * n ∧ len ≤ c * n ∧ c * n < len + n := by
  have h1 : len % n < n := Nat.mod_lt _ hn
  have h2 : n * (len / n) + len % n = len := Nat.div_add_mod len n
  rcases Nat.eq_zero_or_pos (len % n) with h0 | h0
  · refine ⟨len / n, ?_, ?_, ?_⟩
    · rw [padCount_of_mod_eq_zero len n h0, Nat.mul_comm]; omega
    · rw [Nat.mul_comm]; omega
    · rw [Nat.mul_comm]; omega
  · refine ⟨len / n + 1, ?_, ?_, ?_⟩
    · rw [padCount_of_mod_ne_zero len n hn (by omega), Nat.add_mul, Nat.mul_comm]; omega
    · rw [Nat.add_mul, Nat.mul_comm]; omega
    · rw [Nat.add_mul, Nat.mul_comm]; omega

theorem ComputeAverages_eq (p : List ℚ) (n c : Nat) (hn : 0 < n)
    (hc : p.length + padCount p.length n = c * n) :
    ComputeAverages p n
      = some ((List.range c).map
          (fun t => (((padded p n).drop (t * n)).take n).sum / (n : ℚ))) := by
  have hn0 : ¬ n = 0 := by omega
  rw [ComputeAverages, dif_neg hn0, pad_eq]
  simp only
  rw [loop_eq n _ _ 0 [] c (by simp [hc])]
  simp [padded]

/-- C1. For every non-empty sequence `p` and block size `n ≥ 1`, `ComputeAverages p n`
returns a sequence of exactly `⌈len(p) / n⌉` elements. -/
theorem ComputeAverages_length (p : List ℚ) (n : Nat) (hp : p ≠ []) (hn : 1 ≤ n) :
    ∃ res, ComputeAverages p n = some res ∧
      res.length = ⌈(p.length : ℚ) / (n : ℚ)⌉₊ := by
  obtain ⟨c, hc, hle, hlt⟩ := padded_length_eq p.length n hn
  refine ⟨_, ComputeAverages_eq p n c hn hc, ?_⟩
  rw [List.length_map, List.length_range]
  have hlen : 0 < p.length := List.length_pos.mpr hp
  have hc0 : c ≠ 0 := by
    rintro rfl
    omega
  have hnq : (0 : ℚ) < (n : ℚ) := by exact_mod_cast hn
  symm
  rw [Nat.ceil_eq_iff hc0]
  constructor
  · rw [lt_div_iff₀ hnq]
    have h1 : (c - 1) * n < p.length := by
      have : (c - 1) * n + n = c * n := by
        rw [← Nat.succ_mul]
        congr 1
        omega
      omega
    exact_mod_cast h1
  · rw [div_le_iff₀ hnq]
    exact_mod_cast hle

/-- Witness for C1: a five-element profile with block size 3. -/
theorem ComputeAverages_length_witness :
    ([1, 2, 3, 4, 5] : List ℚ) ≠ [] ∧ 1 ≤ 3 ∧
      ∃ res, ComputeAverages [1, 2, 3, 4, 5] 3 = some res ∧
        res.length = ⌈(([1, 2, 3, 4, 5] : List ℚ).length : ℚ) / ((3 : Nat) : ℚ)⌉₊ :=
  ⟨by simp, by decide, ComputeAverages_length [1, 2, 3, 4, 5] 3 (by simp) (by decide)⟩

/-- C2. For a block index `i` whose block lies inside the raw sequence
(`(i+1)*n ≤ len(p)`), element `i` of `ComputeAverages p n` is the arithmetic mean of
the `i`-th contiguous block `p[i*n], ..., p[i*n+n-1]`. -/
theorem ComputeAverages_block (p : List ℚ) (n i : Nat) (hn : 1 ≤ n)
    (hi : (i + 1) * n ≤ p.length) :
    ∃ res, ComputeAverages p n = some res ∧
      ((p.drop (i * n)).take n).length = n ∧
      res[i]? = some (((p.drop (i * n)).take n).sum / (n : ℚ)) := by
  obtain ⟨c, hc, hle, hlt⟩ := padded_length_eq p.length n hn
  have h1 : i * n + n ≤ p.length := by
    rw [← Nat.succ_mul]; exact hi
  refine ⟨_, ComputeAverages_eq p n c hn hc, ?_, ?_⟩
  · rw [List.length_take, List.length_drop]
    omega
  · have hic : i < c := by
      by_contra hcon
      have : c * n ≤ i * n := Nat.mul_le_mul_right n (by omega)
      omega
    rw [List.getElem?_map, List.getElem?_range hic]
    simp only [Option.map_some']
    congr 2
    rw [padded, List.drop_append_of_le_length (by omega),
      List.take_append_of_le_length (by rw [List.length_drop]; omega)]

/-- Witness for C2: the second block of a seven-element profile with block size 3. -/
theorem ComputeAverages_block_witness :
    1 ≤ 3 ∧ (1 + 1) * 3 ≤ ([1, 2, 3, 4, 5, 9, 7] : List ℚ).length ∧
      ∃ res, ComputeAverages [1, 2, 3, 4, 5, 9, 7] 3 = some res ∧
        ((([1, 2, 3, 4, 5, 9, 7] : List ℚ).drop (1 * 3)).take 3).length = 3 ∧
        res[1]? = some (((([1, 2, 3, 4, 5, 9, 7] : List ℚ).drop (1 * 3)).take 3).sum
          / ((3 : Nat) : ℚ)) :=
  ⟨by decide, by decide,
    ComputeAverages_block [1, 2, 3, 4, 5, 9, 7] 3 1 (by decide) (by decide)⟩

/-- C3. When `k = len(p) mod n` is not zero, the last element of `ComputeAverages p n`
is `(sum of the last k raw values + (n - k) * last raw value) / n`: the final block is
completed with copies of the last raw value. -/
theorem ComputeAverages_padding (p : List ℚ) (n : Nat) (hp : p ≠ []) (hn : 1 ≤ n)
    (hk : p.length % n ≠ 0) :
    ∃ res, ComputeAverages p n = some res ∧
      res.getLast? = some
        (((p.drop (p.length - p.length % n)).sum
            + ((n - p.length % n : Nat) : ℚ) * p.getLast hp) / (n : ℚ)) := by
  have h1 : p.length % n < n := Nat.mod_lt _ hn
  have h2 : n * (p.length / n) + p.length % n = p.length := Nat.div_add_mod _ n
  have hc : p.length + padCount p.length n = (p.length / n + 1) * n := by
    rw [padCount_of_mod_ne_zero _ n hn hk, Nat.add_mul, Nat.mul_comm]; omega
  refine ⟨_, ComputeAverages_eq p n _ hn hc, ?_⟩
  rw [List.range_succ, List.map_append, List.map_singleton, List.getLast?_concat]
  congr 2
  have h3 : p.length / n * n = p.length - p.length % n := by
    rw [Nat.mul_comm]; omega
  rw [h3, padded, List.drop_append_of_le_length (by omega), List.take_of_length_le, List.sum_append,
    List.sum_replicate, padCount_of_mod_ne_zero _ n hn hk, nsmul_eq_mul,
    List.getLastD_eq_getLast?, List.getLast?_eq_getLast _ hp, Option.getD_some]
  rw [List.length_append, List.length_drop, List.length_replicate,
    padCount_of_mod_ne_zero _ n hn hk]
  omega

/-- Witness for C3: length 5 is one short of a multiple of the block size 3. -/
theorem ComputeAverages_padding_witness :
    ([1, 2, 3, 4, 5] : List ℚ) ≠ [] ∧ 1 ≤ 3 ∧ ([1, 2, 3, 4, 5] : List ℚ).length % 3 ≠ 0 ∧
      ∃ res, ComputeAverages [1, 2, 3, 4, 5] 3 = some res ∧
        res.getLast? = some
          (((([1, 2, 3, 4, 5] : List ℚ).drop (5 - 5 % 3)).sum
              + ((3 - 5 % 3 : Nat) : ℚ) * 5) / ((3 : Nat) : ℚ)) :=
  ⟨by simp, by decide, by decide,
    ComputeAverages_padding [1, 2, 3, 4, 5] 3 (by simp) (by decide) (by decide)⟩

/-! ## ComputeDeltas -/

theorem ComputeDeltas_loop_eq (points : List ℚ) (i : Nat) (p : ℚ) (deltas : List ℚ)
    (hi : 1 ≤ i) (hp : points[i - 1]? = some p) :
    ComputeDeltas.loop points i p deltas
      = deltas ++ List.zipWith (fun a b => b - a) (points.drop (i - 1)) (points.drop i) := by
  induction i, p, deltas using ComputeDeltas.loop.induct points with
  | case1 i p deltas h ih =>
    rw [ComputeDeltas.loop, dif_pos h, ih (by omega) (by simp [List.getElem?_eq_getElem h])]
    have h1 : i - 1 < points.length := by omega
    rw [List.getElem?_eq_getElem h1] at hp
    cases hp
    rw [List.drop_eq_getElem_cons h1, List.drop_eq_getElem_cons h]
    have h2 : i - 1 + 1 = i := by omega
    simp only [h2, List.zipWith_cons_cons, Nat.add_sub_cancel, List.append_assoc,
      List.singleton_append]
  | case2 i p deltas h =>
    rw [ComputeDeltas.loop, dif_neg h]
    have : points.drop i = [] := List.drop_eq_nil_of_le (by omega)
    simp [this]

theorem ComputeDeltas_cons (x : ℚ) (xs : List ℚ) :
    ComputeDeltas (x :: xs) = some (List.zipWith (fun a b => b - a) (x :: xs) xs) := by
  have h0 : idx (x :: xs) 0 = some x := by
    simpa using idx_natCast (x :: xs) 0
  rw [ComputeDeltas, h0]
  simp only
  rw [ComputeDeltas_loop_eq (x :: xs) 1 x [] (by omega) (by simp)]
  simp

/-- C4. For every non-empty sequence `p`, `ComputeDeltas p` returns a sequence of length
`len(p) - 1` whose element `i` is `p[i+1] - p[i]`. -/
theorem ComputeDeltas_spec (p : List ℚ) (hp : p ≠ []) :
    ∃ deltas, ComputeDeltas p = some deltas ∧
      deltas.length = p.length - 1 ∧
      ∀ (i : Nat) (h : i + 1 < p.length), deltas[i]? = some (p[i + 1] - p[i]) := by
  obtain ⟨x, xs, rfl⟩ := List.exists_cons_of_ne_nil hp
  refine ⟨_, ComputeDeltas_cons x xs, ?_, ?_⟩
  · simp
  · intro i h
    have h1 : i < xs.length := by simpa using h
    have h2 : i < (x :: xs).length := by omega
    rw [List.getElem?_eq_getElem (by simp; omega)]
    simp [List.getElem_zipWith]

/-- Witness for C4: a three-element sequence. -/
theorem ComputeDeltas_spec_witness :
    ([1, 3, 2] : List ℚ) ≠ [] ∧
      ∃ deltas, ComputeDeltas [1, 3, 2] = some deltas ∧
        deltas.length = ([1, 3, 2] : List ℚ).length - 1 ∧
        ∀ (i : Nat) (h : i + 1 < ([1, 3, 2] : List ℚ).length),
          deltas[i]? = some (([1, 3, 2] : List ℚ)[i + 1] - ([1, 3, 2] : List ℚ)[i]) :=
  ⟨by simp, ComputeDeltas_spec [1, 3, 2] (by simp)⟩

/-- Counterexample to C5: on the empty sequence `ComputeDeltas` does not return the
empty sequence; reading `points[0]` panics. -/
theorem ComputeDeltas_nil_not_empty : ComputeDeltas [] ≠ some [] := by
  simp [ComputeDeltas, idx]

/-- C5 (amended). `ComputeDeltas` applied to a one-element sequence returns the empty
sequence; applied to the empty sequence it fails with a panic. -/
theorem ComputeDeltas_singleton_nil :
    (∀ x : ℚ, ComputeDeltas [x] = some []) ∧ ComputeDeltas [] = none := by
  constructor
  · intro x
    rw [ComputeDeltas_cons]
    simp
  · simp [ComputeDeltas, idx]

/-! ## DetermineMaximums -/

theorem DetermineMaximums_loop_mem (d : List ℚ) (i : Nat) (acc : List Maximum) (m : Maximum) :
    m ∈ DetermineMaximums.loop d i acc ↔
      m ∈ acc ∨ ∃ (t : Nat) (h : t + 1 < d.length), i ≤ t ∧ m = ⟨(t : Int), d[t]⟩ ∧
        d[t] > d[t - 1] ∧ d[t] > d[t + 1] := by
  induction i, acc using DetermineMaximums.loop.induct d with
  | case1 i acc h hpeak ih =>
    rw [DetermineMaximums.loop, dif_pos h, if_pos hpeak, ih]
    constructor
    · rintro (hm | ⟨t, ht, hit, rest⟩)
      · rcases List.mem_append.mp hm with hm | hm
        · exact Or.inl hm
        · rw [List.mem_singleton] at hm
          exact Or.inr ⟨i, h, le_refl i, hm, hpeak⟩
      · exact Or.inr ⟨t, ht, by omega, rest⟩
    · rintro (hm | ⟨t, ht, hit, hmt, rest⟩)
      · exact Or.inl (List.mem_append_left _ hm)
      · rcases Nat.eq_or_lt_of_le hit with heq | hlt
        · subst heq
          exact Or.inl (List.mem_append_right _ (by rw [hmt]; exact List.mem_singleton_self _))
        · exact Or.inr ⟨t, ht, hlt, hmt, rest⟩
  | case2 i acc h hpeak ih =>
    rw [DetermineMaximums.loop, dif_pos h, if_neg hpeak, ih]
    constructor
    · rintro (hm | ⟨t, ht, hit, rest⟩)
      · exact Or.inl hm
      · exact Or.inr ⟨t, ht, by omega, rest⟩
    · rintro (hm | ⟨t, ht, hit, hmt, rest⟩)
      · exact Or.inl hm
      · rcases Nat.eq_or_lt_of_le hit with heq | hlt
        · subst heq
          exact absurd rest hpeak
        · exact Or.inr ⟨t, ht, hlt, hmt, rest⟩
  | case3 i acc h =>
    rw [DetermineMaximums.loop, dif_neg h]
    constructor
    · exact Or.inl
    · rintro (hm | ⟨t, ht, hit, _⟩)
      · exact hm
      · omega

theorem DetermineMaximums_loop_pairwise (d : List ℚ) (i : Nat) (acc : List Maximum)
    (hacc : acc.Pairwise (fun a b => a.Index < b.Index))
    (hlt : ∀ a ∈ acc, a.Index < (i : Int)) :
    (DetermineMaximums.loop d i acc).Pairwise (fun a b => a.Index < b.Index) := by
  induction i, acc using DetermineMaximums.loop.induct d with
  | case1 i acc h hpeak ih =>
    rw [DetermineMaximums.loop, dif_pos h, if_pos hpeak]
    apply ih
    · rw [List.pairwise_append]
      refine ⟨hacc, List.pairwise_singleton _ _, ?_⟩
      intro a ha b hb
      rw [List.mem_singleton] at hb
      subst hb
      exact hlt a ha
    · intro a ha
      rcases List.mem_append.mp ha with ha | ha
      · have := hlt a ha
        push_cast
        omega
      · rw [List.mem_singleton] at ha
        subst ha
        push_cast
        simp
  | case2 i acc h hpeak ih =>
    rw [DetermineMaximums.loop, dif_pos h, if_neg hpeak]
    apply ih hacc
    intro a ha
    have := hlt a ha
    push_cast
    omega
  | case3 i acc h =>
    rw [DetermineMaximums.loop, dif_neg h]
    exact hacc

theorem DetermineMaximums_pairwise (d : List ℚ) :
    (DetermineMaximums d).Pairwise (fun a b => a.Index < b.Index) :=
  DetermineMaximums_loop_pairwise d 1 [] List.Pairwise.nil (by simp)

/-- C6. `DetermineMaximums d` contains exactly the pairs `(i, d[i])` with
`1 ≤ i ≤ len(d) - 2`, `d[i] > d[i-1]` and `d[i] > d[i+1]` (so never index 0, the last
index, or a plateau index), listed in ascending index order. -/
theorem DetermineMaximums_spec (d : List ℚ) :
    (∀ m : Maximum, m ∈ DetermineMaximums d ↔
      ∃ (i : Nat) (h : i + 1 < d.length), 1 ≤ i ∧ m = ⟨(i : Int), d[i]⟩ ∧
        d[i] > d[i - 1] ∧ d[i] > d[i + 1]) ∧
    (DetermineMaximums d).Pairwise (fun a b => a.Index < b.Index) := by
  constructor
  · intro m
    rw [DetermineMaximums, DetermineMaximums_loop_mem]
    simp
  · exact DetermineMaximums_pairwise d

/-! ## Sorting -/

theorem insert_perm (less : Maximum → Maximum → Bool) (x : Maximum) (before : List Maximum) :
    (insertionSort.insert less x before).Perm (x :: before) := by
  induction before with
  | nil => exact List.Perm.refl _
  | cons y before ih =>
    rw [insertionSort.insert]
    split
    · exact ((List.Perm.cons y ih).trans (List.Perm.swap x y before))
    · exact List.Perm.refl _

theorem insertionSort_loop_perm (less : Maximum → Maximum → Bool) (before rest : List Maximum) :
    (insertionSort.loop less before rest).Perm (before ++ rest) := by
  induction rest generalizing before with
  | nil => simp [insertionSort.loop]
  | cons x rest ih =>
    rw [insertionSort.loop]
    refine (ih _).trans ?_
    refine ((insert_perm less x before).append_right rest).trans ?_
    exact (@List.perm_middle _ x before rest).symm

theorem insertionSort_perm (less : Maximum → Maximum → Bool) (data : List Maximum) :
    (insertionSort less data).Perm data := by
  simpa [insertionSort] using insertionSort_loop_perm less [] data

theorem LessOK.asymm {less : Maximum → Maximum → Bool} (h : LessOK less) {a b : Maximum} (hab : less a b = true) :
    less b a = false := by
  by_contra hba
  have hba2 : less b a = true := by simpa using hba
  have := h.2.1 a b a hab hba2
  rw [h.1 a] at this
  cases this

theorem insert_sorted (less : Maximum → Maximum → Bool) (hl : LessOK less) (x : Maximum) (before : List Maximum)
    (hb : before.Pairwise (fun a b => less a b = false)) :
    (insertionSort.insert less x before).Pairwise (fun a b => less a b = false) := by
  induction before with
  | nil => simp [insertionSort.insert]
  | cons y before ih =>
    rw [List.pairwise_cons] at hb
    rw [insertionSort.insert]
    split
    · rename_i hxy
      rw [List.pairwise_cons]
      refine ⟨?_, ih hb.2⟩
      intro z hz
      rcases List.mem_cons.mp ((insert_perm less x before).mem_iff.mp hz) with rfl | hz2
      · exact hl.asymm hxy
      · exact hb.1 z hz2
    · rename_i hxy
      have hxy2 : less x y = false := by simpa using hxy
      rw [List.pairwise_cons]
      refine ⟨?_, List.pairwise_cons.mpr hb⟩
      intro z hz
      rcases List.mem_cons.mp hz with rfl | hz
      · exact hxy2
      · exact hl.2.2 x y z hxy2 (hb.1 z hz)

theorem insertionSort_loop_sorted (less : Maximum → Maximum → Bool) (hl : LessOK less) (before rest : List Maximum)
    (hb : before.Pairwise (fun a b => less a b = false)) :
    (insertionSort.loop less before rest).Pairwise (fun a b => less b a = false) := by
  induction rest generalizing before with
  | nil =>
    rw [insertionSort.loop, List.pairwise_reverse]
    exact hb
  | cons x rest ih =>
    rw [insertionSort.loop]
    exact ih _ (insert_sorted less hl x before hb)

theorem insertionSort_sorted (less : Maximum → Maximum → Bool) (hl : LessOK less) (data : List Maximum) :
    (insertionSort less data).Pairwise (fun a b => less b a = false) :=
  insertionSort_loop_sorted less hl [] data List.Pairwise.nil

theorem insertionSort_contract : SortSliceContract insertionSort :=
  fun less xs => ⟨insertionSort_perm less xs, fun hl => insertionSort_sorted less hl xs⟩

theorem SortMaximums_less_ok : LessOK SortMaximums.less := by
  refine ⟨?_, ?_, ?_⟩
  · intro a
    simp [SortMaximums.less]
  · intro a b c hab hbc
    simp only [SortMaximums.less, decide_eq_true_eq] at *
    exact gt_trans hab hbc
  · intro a b c hab hbc
    simp only [SortMaximums.less, decide_eq_false_iff_not, not_lt, gt_iff_lt] at *
    exact le_trans hab hbc

theorem OrderMaximums_less_ok : LessOK OrderMaximums.less := by
  refine ⟨?_, ?_, ?_⟩
  · intro a
    simp [OrderMaximums.less]
  · intro a b c hab hbc
    simp only [OrderMaximums.less, decide_eq_true_eq] at *
    exact lt_trans hab hbc
  · intro a b c hab hbc
    simp only [OrderMaximums.less, decide_eq_false_iff_not, not_lt] at *
    exact le_trans hbc hab

theorem SortMaximums_sorted (sortSlice : (Maximum → Maximum → Bool) → List Maximum → List Maximum)
    (hS : SortSliceContract sortSlice) (xs : List Maximum) :
    (SortMaximums sortSlice xs).Perm xs ∧
      (SortMaximums sortSlice xs).Pairwise (fun a b => a.Value ≥ b.Value) := by
  refine ⟨(hS _ xs).1, ((hS _ xs).2 SortMaximums_less_ok).imp ?_⟩
  intro a b h
  simpa [SortMaximums.less] using h

theorem OrderMaximums_sorted (sortSlice : (Maximum → Maximum → Bool) → List Maximum → List Maximum)
    (hS : SortSliceContract sortSlice) (xs : List Maximum) :
    (OrderMaximums sortSlice xs).Perm xs ∧
      (OrderMaximums sortSlice xs).Pairwise (fun a b => a.Index ≤ b.Index) := by
  refine ⟨(hS _ xs).1, ((hS _ xs).2 OrderMaximums_less_ok).imp ?_⟩
  intro a b h
  simpa [OrderMaximums.less] using h

theorem index_injOn_of_pairwise {l : List Maximum}
    (h : l.Pairwise (fun a b => a.Index < b.Index)) :
    ∀ a ∈ l, ∀ b ∈ l, a ≠ b → a.Index ≠ b.Index := by
  have h2 : l.Pairwise (fun a b => a.Index ≠ b.Index) := h.imp (fun hlt => ne_of_lt hlt)
  exact h2.forall (fun a b hab => hab.symm)

theorem nodup_of_pairwise_index {l : List Maximum}
    (h : l.Pairwise (fun a b => a.Index < b.Index)) : l.Nodup := by
  refine h.imp ?_
  intro a b hlt heq
  rw [heq] at hlt
  exact lt_irrefl _ hlt

/-- C7. For a delta sequence with at least 3 local maxima of pairwise distinct values,
the triple `m[0], m[1], m[2]` that `DetectEdges` obtains (sort by value, first three,
reorder by index) consists of exactly the three candidates with the highest values, in
strictly ascending index order; this holds for every sort routine meeting the contract
of `sort.Slice`. -/
theorem DetectEdges_m_spec
    (sortSlice : (Maximum → Maximum → Bool) → List Maximum → List Maximum)
    (hS : SortSliceContract sortSlice) (d : List ℚ)
    (h3 : 3 ≤ (DetermineMaximums d).length)
    (hdist : (DetermineMaximums d).Pairwise (fun a b => a.Value ≠ b.Value)) :
    ∃ m0 m1 m2, DetectEdges.m sortSlice d = some [m0, m1, m2] ∧
      m0.Index < m1.Index ∧ m1.Index < m2.Index ∧
      (∀ a ∈ [m0, m1, m2], a ∈ DetermineMaximums d) ∧
      (∀ c ∈ DetermineMaximums d, c ∉ [m0, m1, m2] → ∀ a ∈ [m0, m1, m2], c.Value < a.Value) := by
  obtain ⟨hperm, hsorted⟩ := SortMaximums_sorted sortSlice hS (DetermineMaximums d)
  have hlen : (SortMaximums sortSlice (DetermineMaximums d)).length
      = (DetermineMaximums d).length := hperm.length_eq
  obtain ⟨hperm2, hsorted2⟩ := OrderMaximums_sorted sortSlice hS
    ((SortMaximums sortSlice (DetermineMaximums d)).take 3)
  have hlen2 : (OrderMaximums sortSlice ((SortMaximums sortSlice (DetermineMaximums d)).take 3)).length
      = 3 := by
    rw [hperm2.length_eq, List.length_take]
    omega
  have hm : DetectEdges.m sortSlice d
      = some (OrderMaximums sortSlice ((SortMaximums sortSlice (DetermineMaximums d)).take 3)) := by
    simp only [DetectEdges.m]
    rw [if_neg (by omega)]
  generalize hs : SortMaximums sortSlice (DetermineMaximums d) = s at *
  generalize hmm : OrderMaximums sortSlice (s.take 3) = m at *
  match m, hlen2 with
  | [m0, m1, m2], _ =>
    have hpw := DetermineMaximums_pairwise d
    have hsub : ∀ a ∈ [m0, m1, m2], a ∈ DetermineMaximums d := fun a ha =>
      hperm.mem_iff.mp (List.mem_of_mem_take (hperm2.mem_iff.mp ha))
    have hnd : [m0, m1, m2].Nodup :=
      hperm2.nodup_iff.mpr
        ((hperm.nodup_iff.mpr (nodup_of_pairwise_index hpw)).sublist (List.take_sublist 3 s))
    have hinj := index_injOn_of_pairwise hpw
    simp only [List.pairwise_cons, List.mem_cons, List.mem_singleton, forall_eq_or_imp, forall_eq,
      List.not_mem_nil, false_implies, implies_true, List.Pairwise.nil, and_true, or_false]
      at hsorted2
    simp only [List.nodup_cons, List.mem_cons, List.mem_singleton, not_or, List.not_mem_nil,
      not_false_eq_true, List.nodup_nil, and_true] at hnd
    have hm0 := hsub m0 (by simp)
    have hm1 := hsub m1 (by simp)
    have hm2 := hsub m2 (by simp)
    refine ⟨m0, m1, m2, hm, ?_, ?_, hsub, ?_⟩
    · exact lt_of_le_of_ne hsorted2.1.1 (hinj m0 hm0 m1 hm1 hnd.1.1)
    · exact lt_of_le_of_ne hsorted2.2 (hinj m1 hm1 m2 hm2 hnd.2)
    · intro c hc hcm a ha
      have hcs : c ∈ s := hperm.mem_iff.mpr hc
      have hcd : c ∈ s.drop 3 := by
        rw [← List.take_append_drop 3 s, List.mem_append] at hcs
        rcases hcs with h | h
        · exact absurd (hperm2.mem_iff.mpr h) hcm
        · exact h
      have hat : a ∈ s.take 3 := hperm2.mem_iff.mp ha
      have hsplit : (s.take 3 ++ s.drop 3).Pairwise (fun a b => a.Value ≥ b.Value) := by
        rw [List.take_append_drop]
        exact hsorted
      have hge : a.Value ≥ c.Value := (List.pairwise_append.mp hsplit).2.2 a hat c hcd
      have hne : a ≠ c := by
        rintro rfl
        exact hcm ha
      have hne2 : a.Value ≠ c.Value :=
        hdist.forall (fun x y hxy => hxy.symm) (hsub a ha) hc hne
      exact lt_of_le_of_ne hge (fun h => hne2 h.symm)

theorem DetermineMaximums_five :
    DetermineMaximums [0, 3, 0, 1, 0, 5, 0, 2, 0, 4, 0]
      = [⟨1, 3⟩, ⟨3, 1⟩, ⟨5, 5⟩, ⟨7, 2⟩, ⟨9, 4⟩] := by
  with_unfolding_all decide

/-- Witness for C7: five local maxima of distinct values, sorted with `insertionSort`. -/
theorem DetectEdges_m_spec_witness :
    SortSliceContract insertionSort ∧
    3 ≤ (DetermineMaximums [0, 3, 0, 1, 0, 5, 0, 2, 0, 4, 0]).length ∧
    (DetermineMaximums [0, 3, 0, 1, 0, 5, 0, 2, 0, 4, 0]).Pairwise
      (fun a b => a.Value ≠ b.Value) ∧
    ∃ m0 m1 m2, DetectEdges.m insertionSort [0, 3, 0, 1, 0, 5, 0, 2, 0, 4, 0]
        = some [m0, m1, m2] ∧
      m0.Index < m1.Index ∧ m1.Index < m2.Index ∧
      (∀ a ∈ [m0, m1, m2], a ∈ DetermineMaximums [0, 3, 0, 1, 0, 5, 0, 2, 0, 4, 0]) ∧
      (∀ c ∈ DetermineMaximums [0, 3, 0, 1, 0, 5, 0, 2, 0, 4, 0], c ∉ [m0, m1, m2] →
        ∀ a ∈ [m0, m1, m2], c.Value < a.Value) :=
  ⟨insertionSort_contract,
    by rw [DetermineMaximums_five]; decide,
    by rw [DetermineMaximums_five]; simp,
    DetectEdges_m_spec insertionSort insertionSort_contract [0, 3, 0, 1, 0, 5, 0, 2, 0, 4, 0]
      (by rw [DetermineMaximums_five]; decide) (by rw [DetermineMaximums_five]; simp)⟩

theorem pdqsort_func_small (next : Nat → Nat) (less : Maximum → Maximum → Bool) (fuel : Nat)
    (data : List Maximum) (a b limit : Nat) (wasBalanced wasPartitioned : Bool)
    (h : b - a ≤ 12) :
    pdqsort_func next less (fuel + 1) data a b limit wasBalanced wasPartitioned
      = insertionSort_func less data a b := by
  rw [pdqsort_func]
  simp only [h, if_true]

/-- On a slice of at most 12 elements `sort.Slice` is `insertionSort`. -/
theorem sort_Slice_small (next : Nat → Nat) (less : Maximum → Maximum → Bool)
    (data : List Maximum) (h : data.length ≤ 12) :
    sort.Slice next less data = insertionSort less data := by
  rw [sort.Slice, pdqsort_func_small next less _ data 0 data.length _ true true (by omega)]
  simp [insertionSort_func]

/-- An element moved by the inner loop of `insertionSort` passes only elements of other
values: the sublist of the elements of any one value is unchanged. -/
theorem insert_filter_value (v : ℚ) (x : Maximum) (before : List Maximum) :
    (insertionSort.insert SortMaximums.less x before).filter (fun m => decide (m.Value = v))
      = (x :: before).filter (fun m => decide (m.Value = v)) := by
  induction before with
  | nil => rfl
  | cons y rest ih =>
    rw [insertionSort.insert]
    split
    · rename_i hless
      have hgt : x.Value > y.Value := by simpa [SortMaximums.less] using hless
      rw [List.filter_cons, ih]
      by_cases hx : x.Value = v
      · have hy : ¬ y.Value = v := by
          intro hy
          rw [hx, hy] at hgt
          exact lt_irrefl _ hgt
        simp [List.filter_cons, hx, hy]
      · simp [List.filter_cons, hx]
    · rfl

theorem insertionSort_loop_filter_value (v : ℚ) (before rest : List Maximum) :
    (insertionSort.loop SortMaximums.less before rest).filter (fun m => decide (m.Value = v))
      = (before.reverse ++ rest).filter (fun m => decide (m.Value = v)) := by
  induction rest generalizing before with
  | nil => simp [insertionSort.loop]
  | cons x rest ih =>
    rw [insertionSort.loop, ih, List.filter_append, List.filter_reverse, insert_filter_value,
      ← List.filter_reverse, ← List.filter_append]
    simp

/-- Stability of `insertionSort` under the comparison of `SortMaximums`: the candidates of
any one value keep their order. -/
theorem insertionSort_filter_value (v : ℚ) (data : List Maximum) :
    (insertionSort SortMaximums.less data).filter (fun m => decide (m.Value = v))
      = data.filter (fun m => decide (m.Value = v)) := by
  rw [insertionSort, insertionSort_loop_filter_value]
  simp

/-- Counterexample to C8: a delta sequence with 13 local maxima, the first twelve of value 1
(indices 1, 3, ..., 23) and the last of value 2 (index 25).  On 13 elements `sort.Slice`
(Go 1.19 and later) does not run the insertion sort at once: it picks the element at
position 6 (index 13) as pivot, moves it to the front and partitions.  The sorted slice
begins with the candidates of indices 25, 13, 5, so the retained triple holds the tied
candidates of indices 5 and 13 and not the first-encountered ones of indices 1 and 3.  The
pseudo-random generator is not consulted: the result is the same for every `next`. -/
theorem SortMaximums_not_stable :
    DetermineMaximums
        [-1, 1, -1, 1, -1, 1, -1, 1, -1, 1, -1, 1, -1, 1, -1, 1, -1, 1, -1, 1, -1, 1, -1, 1,
          -1, 2, -1]
      = [⟨1, 1⟩, ⟨3, 1⟩, ⟨5, 1⟩, ⟨7, 1⟩, ⟨9, 1⟩, ⟨11, 1⟩, ⟨13, 1⟩, ⟨15, 1⟩, ⟨17, 1⟩, ⟨19, 1⟩,
          ⟨21, 1⟩, ⟨23, 1⟩, ⟨25, 2⟩] ∧
    (∀ next : Nat → Nat,
      SortMaximums (sort.Slice next)
          [⟨1, 1⟩, ⟨3, 1⟩, ⟨5, 1⟩, ⟨7, 1⟩, ⟨9, 1⟩, ⟨11, 1⟩, ⟨13, 1⟩, ⟨15, 1⟩, ⟨17, 1⟩, ⟨19, 1⟩,
            ⟨21, 1⟩, ⟨23, 1⟩, ⟨25, 2⟩]
        = [⟨25, 2⟩, ⟨13, 1⟩, ⟨5, 1⟩, ⟨7, 1⟩, ⟨9, 1⟩, ⟨11, 1⟩, ⟨1, 1⟩, ⟨15, 1⟩, ⟨17, 1⟩, ⟨19, 1⟩,
            ⟨21, 1⟩, ⟨23, 1⟩, ⟨3, 1⟩] ∧
      DetectEdges.m (sort.Slice next)
          [-1, 1, -1, 1, -1, 1, -1, 1, -1, 1, -1, 1, -1, 1, -1, 1, -1, 1, -1, 1, -1, 1, -1, 1,
            -1, 2, -1]
        = some [⟨5, 1⟩, ⟨13, 1⟩, ⟨25, 2⟩]) ∧
    (⟨1, 1⟩ : Maximum) ∉ ([⟨5, 1⟩, ⟨13, 1⟩, ⟨25, 2⟩] : List Maximum) := by
  have hDM : DetermineMaximums
      [-1, 1, -1, 1, -1, 1, -1, 1, -1, 1, -1, 1, -1, 1, -1, 1, -1, 1, -1, 1, -1, 1, -1, 1,
        -1, 2, -1]
      = [⟨1, 1⟩, ⟨3, 1⟩, ⟨5, 1⟩, ⟨7, 1⟩, ⟨9, 1⟩, ⟨11, 1⟩, ⟨13, 1⟩, ⟨15, 1⟩, ⟨17, 1⟩, ⟨19, 1⟩,
          ⟨21, 1⟩, ⟨23, 1⟩, ⟨25, 2⟩] := by
    with_unfolding_all decide
  refine ⟨hDM, ?_, by simp⟩
  intro next
  have hsort : SortMaximums (sort.Slice next)
      [⟨1, 1⟩, ⟨3, 1⟩, ⟨5, 1⟩, ⟨7, 1⟩, ⟨9, 1⟩, ⟨11, 1⟩, ⟨13, 1⟩, ⟨15, 1⟩, ⟨17, 1⟩, ⟨19, 1⟩,
        ⟨21, 1⟩, ⟨23, 1⟩, ⟨25, 2⟩]
      = [⟨25, 2⟩, ⟨13, 1⟩, ⟨5, 1⟩, ⟨7, 1⟩, ⟨9, 1⟩, ⟨11, 1⟩, ⟨1, 1⟩, ⟨15, 1⟩, ⟨17, 1⟩, ⟨19, 1⟩,
          ⟨21, 1⟩, ⟨23, 1⟩, ⟨3, 1⟩] := by
    have h1 : choosePivot_func SortMaximums.less
        [⟨1, 1⟩, ⟨3, 1⟩, ⟨5, 1⟩, ⟨7, 1⟩, ⟨9, 1⟩, ⟨11, 1⟩, ⟨13, 1⟩, ⟨15, 1⟩, ⟨17, 1⟩, ⟨19, 1⟩,
          ⟨21, 1⟩, ⟨23, 1⟩, ⟨25, 2⟩] 0 13 = (6, sortedHint.increasingHint) := by
      with_unfolding_all decide
    have h2 : partialInsertionSort_func SortMaximums.less
        [⟨1, 1⟩, ⟨3, 1⟩, ⟨5, 1⟩, ⟨7, 1⟩, ⟨9, 1⟩, ⟨11, 1⟩, ⟨13, 1⟩, ⟨15, 1⟩, ⟨17, 1⟩, ⟨19, 1⟩,
          ⟨21, 1⟩, ⟨23, 1⟩, ⟨25, 2⟩] 0 13
        = ([⟨1, 1⟩, ⟨3, 1⟩, ⟨5, 1⟩, ⟨7, 1⟩, ⟨9, 1⟩, ⟨11, 1⟩, ⟨13, 1⟩, ⟨15, 1⟩, ⟨17, 1⟩, ⟨19, 1⟩,
          ⟨21, 1⟩, ⟨23, 1⟩, ⟨25, 2⟩], false) := by
      with_unfolding_all decide
    have h3 : partition_func SortMaximums.less
        [⟨1, 1⟩, ⟨3, 1⟩, ⟨5, 1⟩, ⟨7, 1⟩, ⟨9, 1⟩, ⟨11, 1⟩, ⟨13, 1⟩, ⟨15, 1⟩, ⟨17, 1⟩, ⟨19, 1⟩,
          ⟨21, 1⟩, ⟨23, 1⟩, ⟨25, 2⟩] 0 13 6
        = ([⟨25, 2⟩, ⟨13, 1⟩, ⟨5, 1⟩, ⟨7, 1⟩, ⟨9, 1⟩, ⟨11, 1⟩, ⟨1, 1⟩, ⟨15, 1⟩, ⟨17, 1⟩, ⟨19, 1⟩,
          ⟨21, 1⟩, ⟨23, 1⟩, ⟨3, 1⟩], 1, false) := by
      with_unfolding_all decide
    have h5 : bitsLen 13 = 4 := by with_unfolding_all decide
    rw [SortMaximums, sort.Slice]
    simp only [List.length_cons, List.length_nil, Nat.reduceAdd]
    rw [h5]
    show pdqsort_func next SortMaximums.less (13 + 1) _ 0 13 4 true true = _
    rw [pdqsort_func]
    simp only [if_true, h1, h2, h3, Nat.sub_zero, Nat.reduceLeDiff, if_false,
      OfNat.ofNat_ne_zero, reduceCtorEq, and_self, gt_iff_lt, lt_self_iff_false, false_and,
      Bool.false_eq_true, Nat.one_lt_ofNat, Nat.reduceSub, Nat.reduceDiv, ge_iff_le, le_refl,
      decide_True, Nat.reduceAdd]
    show pdqsort_func next SortMaximums.less (12 + 1)
        (pdqsort_func next SortMaximums.less (12 + 1) _ 0 1 4 true true) 2 13 4 true false = _
    rw [pdqsort_func_small next _ 12 _ 0 1 4 true true (by decide),
      pdqsort_func_small next _ 12 _ 2 13 4 true false (by decide)]
    clear h1 h2 h3 h5 hDM next
    with_unfolding_all decide
  refine ⟨hsort, ?_⟩
  simp only [DetectEdges.m]
  rw [hDM, hsort]
  simp only [List.length_cons, List.length_nil, Nat.reduceAdd, Nat.reduceLT, if_false,
    List.take_succ_cons, List.take_zero, OrderMaximums]
  rw [sort_Slice_small next _ _ (by decide)]
  clear hDM hsort next
  with_unfolding_all decide

/-- C8 (amended). When there are at most 12 local-maximum candidates, the
descending-by-value sort used for the top-3 selection (`sort.Slice` of Go 1.19 and later,
an insertion sort on at most 12 elements) is stable: the result is the
candidates in non-increasing value order, the candidates of any one value keep their
original scan order, and so among tied candidates competing for the three retained places
the ones with the smaller index (first encountered) are retained.  (With 13 or more
candidates `sort.Slice` partitions around a pivot and tied candidates can change places.) -/
theorem SortMaximums_stable (next : Nat → Nat) (d : List ℚ)
    (h : (DetermineMaximums d).length ≤ 12) :
    (SortMaximums (sort.Slice next) (DetermineMaximums d)).Perm (DetermineMaximums d) ∧
    (SortMaximums (sort.Slice next) (DetermineMaximums d)).Pairwise
      (fun a b => a.Value ≥ b.Value) ∧
    (∀ v : ℚ,
      (SortMaximums (sort.Slice next) (DetermineMaximums d)).filter
          (fun m => decide (m.Value = v))
        = (DetermineMaximums d).filter (fun m => decide (m.Value = v))) ∧
    (∀ a b : Maximum, a ∈ DetermineMaximums d → b ∈ DetermineMaximums d →
      a.Value = b.Value → a.Index < b.Index →
      b ∈ (SortMaximums (sort.Slice next) (DetermineMaximums d)).take 3 →
      a ∈ (SortMaximums (sort.Slice next) (DetermineMaximums d)).take 3) := by
  have heq : SortMaximums (sort.Slice next) (DetermineMaximums d)
      = SortMaximums insertionSort (DetermineMaximums d) := by
    rw [SortMaximums, SortMaximums, sort_Slice_small next _ _ h]
  rw [heq]
  obtain ⟨hperm, hsorted⟩ := SortMaximums_sorted insertionSort insertionSort_contract
    (DetermineMaximums d)
  have hfilter : ∀ v : ℚ,
      (SortMaximums insertionSort (DetermineMaximums d)).filter (fun m => decide (m.Value = v))
        = (DetermineMaximums d).filter (fun m => decide (m.Value = v)) :=
    fun v => insertionSort_filter_value v _
  refine ⟨hperm, hsorted, hfilter, ?_⟩
  intro a b ha hb hab hlt hb3
  by_contra ha3
  have ha2 : a ∈ (SortMaximums insertionSort (DetermineMaximums d)).drop 3 := by
    have hmem : a ∈ (SortMaximums insertionSort (DetermineMaximums d)).take 3 ++
        (SortMaximums insertionSort (DetermineMaximums d)).drop 3 := by
      rw [List.take_append_drop]
      exact hperm.mem_iff.mpr ha
    rcases List.mem_append.mp hmem with h1 | h1
    · exact absurd h1 ha3
    · exact h1
  have hpw : ((DetermineMaximums d).filter (fun m => decide (m.Value = a.Value))).Pairwise
      (fun x y => x.Index < y.Index) :=
    (DetermineMaximums_pairwise d).sublist (List.filter_sublist _)
  rw [← hfilter a.Value] at hpw
  have hsplit := List.take_append_drop 3 (SortMaximums insertionSort (DetermineMaximums d))
  rw [← hsplit, List.filter_append] at hpw
  have hb4 : b ∈ ((SortMaximums insertionSort (DetermineMaximums d)).take 3).filter
      (fun m => decide (m.Value = a.Value)) :=
    List.mem_filter.mpr ⟨hb3, by simp [hab]⟩
  have ha4 : a ∈ ((SortMaximums insertionSort (DetermineMaximums d)).drop 3).filter
      (fun m => decide (m.Value = a.Value)) :=
    List.mem_filter.mpr ⟨ha2, by simp⟩
  have hba := (List.pairwise_append.mp hpw).2.2 b hb4 a ha4
  omega

/-- Witness for C8 (amended): seven candidates, four of them tied at value 1 (indices
1, 3, 5, 7); the retained triple holds the tied candidates of indices 1 and 3. -/
theorem SortMaximums_stable_witness :
    (DetermineMaximums [-1, 1, -1, 1, -1, 1, -1, 1, -1, 0, -1, 0, -1, 2, -1]).length ≤ 12 ∧
    DetectEdges.m (sort.Slice (fun r => r))
        [-1, 1, -1, 1, -1, 1, -1, 1, -1, 0, -1, 0, -1, 2, -1]
      = some [⟨1, 1⟩, ⟨3, 1⟩, ⟨13, 2⟩] ∧
    (∀ a b : Maximum,
      a ∈ DetermineMaximums [-1, 1, -1, 1, -1, 1, -1, 1, -1, 0, -1, 0, -1, 2, -1] →
      b ∈ DetermineMaximums [-1, 1, -1, 1, -1, 1, -1, 1, -1, 0, -1, 0, -1, 2, -1] →
      a.Value = b.Value → a.Index < b.Index →
      b ∈ (SortMaximums (sort.Slice (fun r => r))
        (DetermineMaximums [-1, 1, -1, 1, -1, 1, -1, 1, -1, 0, -1, 0, -1, 2, -1])).take 3 →
      a ∈ (SortMaximums (sort.Slice (fun r => r))
        (DetermineMaximums [-1, 1, -1, 1, -1, 1, -1, 1, -1, 0, -1, 0, -1, 2, -1])).take 3) :=
  ⟨by with_unfolding_all decide, by with_unfolding_all decide,
    (SortMaximums_stable (fun r => r) [-1, 1, -1, 1, -1, 1, -1, 1, -1, 0, -1, 0, -1, 2, -1]
      (by with_unfolding_all decide)).2.2.2⟩

/-! ## FindZeroPoint and FindLowestPoint -/

theorem FindZeroPoint_none_neg (d : List ℚ) (i : Nat) (hi : i < d.length)
    (h : ∀ j : Nat, 1 ≤ j → j ≤ i → ∀ hj : j < d.length, ¬ d[j] < 0) :
    FindZeroPoint d (i : Int) = some 0 := by
  induction i with
  | zero =>
    rw [FindZeroPoint, dif_neg (by simp)]
    rfl
  | succ k ih =>
    have hk : ((k + 1 : Nat) : Int) > 0 := by omega
    rw [FindZeroPoint, dif_pos hk, idx_natCast, List.getElem?_eq_getElem hi]
    simp only
    rw [if_neg (h (k + 1) (by omega) (le_refl _) hi)]
    have hcast : ((k + 1 : Nat) : Int) - 1 = (k : Int) := by omega
    rw [hcast]
    exact ih (by omega) (fun j hj1 hj2 hj => h j hj1 (by omega) hj)

theorem FindZeroPoint_last_neg (d : List ℚ) (i j : Nat) (hj : j < d.length) (hneg : d[j] < 0)
    (hi : i < d.length) (hj1 : 1 ≤ j) (hji : j ≤ i)
    (hlast : ∀ k : Nat, j < k → k ≤ i → ∀ hk : k < d.length, ¬ d[k] < 0) :
    FindZeroPoint d (i : Int) = some ((j : Int) + 1) := by
  induction i with
  | zero => omega
  | succ k ih =>
    have hk : ((k + 1 : Nat) : Int) > 0 := by omega
    rw [FindZeroPoint, dif_pos hk, idx_natCast, List.getElem?_eq_getElem hi]
    simp only
    rcases Nat.eq_or_lt_of_le hji with heq | hlt
    · subst heq
      rw [if_pos hneg]
    · rw [if_neg (hlast (k + 1) hlt (le_refl _) hi)]
      have hcast : ((k + 1 : Nat) : Int) - 1 = (k : Int) := by omega
      rw [hcast]
      exact ih (by omega) (by omega) (fun t ht1 ht2 ht => hlast t ht1 (by omega) ht)

/-- C9. For `0 ≤ fromIndex < len(d)`, `FindZeroPoint d fromIndex` returns `j + 1` for the
greatest index `j` in `1..fromIndex` with `d[j] < 0`, and `0` when no index in
`1..fromIndex` has a negative delta (index 0 is not inspected); for example
`FindZeroPoint [-1, -1, 2, 3, 1] 3 = 2`. -/
theorem FindZeroPoint_spec :
    (∀ (d : List ℚ) (i : Nat), i < d.length →
      (∀ j : Nat, ∀ hj : j < d.length, 1 ≤ j → j ≤ i → d[j] < 0 →
          (∀ k : Nat, ∀ hk : k < d.length, j < k → k ≤ i → ¬ d[k] < 0) →
          FindZeroPoint d (i : Int) = some ((j : Int) + 1)) ∧
      ((∀ j : Nat, ∀ hj : j < d.length, 1 ≤ j → j ≤ i → ¬ d[j] < 0) →
          FindZeroPoint d (i : Int) = some 0)) ∧
    FindZeroPoint [-1, -1, 2, 3, 1] 3 = some 2 := by
  refine ⟨fun d i hi => ⟨?_, ?_⟩, ?_⟩
  · intro j hj hj1 hji hneg hlast
    exact FindZeroPoint_last_neg d i j hj hneg hi hj1 hji (fun k hk1 hk2 hk => hlast k hk hk1 hk2)
  · intro h
    exact FindZeroPoint_none_neg d i hi (fun j hj1 hj2 hj => h j hj hj1 hj2)
  · with_unfolding_all decide

/-- Witness for C9: the example sequence, whose last negative delta at or before index 3
is at index 1. -/
theorem FindZeroPoint_spec_witness :
    3 < ([-1, -1, 2, 3, 1] : List ℚ).length ∧
      FindZeroPoint [-1, -1, 2, 3, 1] ((3 : Nat) : Int) = some (((1 : Nat) : Int) + 1) :=
  ⟨by decide,
    (FindZeroPoint_spec.1 [-1, -1, 2, 3, 1] 3 (by decide)).1 1 (by decide) (by decide)
      (by decide) (by with_unfolding_all decide)
      (fun k hk h1 h2 => by interval_cases k <;> norm_num)⟩

theorem idx_eq_some_of_lt (xs : List ℚ) (i : Int) (h0 : 0 ≤ i) (h1 : i < (xs.length : Int)) :
    ∃ v, idx xs i = some v := by
  have h2 : i.toNat < xs.length := by omega
  refine ⟨xs[i.toNat], ?_⟩
  rw [idx, if_neg (by omega), List.getElem?_eq_getElem h2]

theorem FindLowestPoint_loop_bounds (values : List ℚ) (limit i : Int) (min : ℚ) (j : Int)
    (hi : i < (values.length : Int)) :
    ∃ r, FindLowestPoint.loop values limit i min j = some r ∧
      (r = j ∨ (limit < r ∧ 0 ≤ r ∧ r ≤ i)) := by
  induction i, min, j using FindLowestPoint.loop.induct values limit with
  | case1 i min j hg hnone =>
    obtain ⟨v, hv⟩ := idx_eq_some_of_lt values i hg.2 hi
    rw [hv] at hnone
    cases hnone
  | case2 i min j hg v hv hlt ih =>
    obtain ⟨r, hr, hb⟩ := ih (by omega)
    refine ⟨r, ?_, ?_⟩
    · rw [FindLowestPoint.loop, dif_pos hg, hv]
      simp only
      rw [if_pos hlt]
      exact hr
    · right
      rcases hb with rfl | ⟨h1, h2, h3⟩
      · exact ⟨hg.1, hg.2, le_refl _⟩
      · exact ⟨h1, h2, by omega⟩
  | case3 i min j hg v hv hlt ih =>
    obtain ⟨r, hr, hb⟩ := ih (by omega)
    refine ⟨r, ?_, ?_⟩
    · rw [FindLowestPoint.loop, dif_pos hg, hv]
      simp only
      rw [if_neg hlt]
      exact hr
    · rcases hb with rfl | ⟨h1, h2, h3⟩
      · exact Or.inl rfl
      · exact Or.inr ⟨h1, h2, by omega⟩
  | case4 i min j hg =>
    refine ⟨j, ?_, Or.inl rfl⟩
    rw [FindLowestPoint.loop, dif_neg hg]

/-- The subtraction `limit = i - limit` is exact when the difference of a non-negative
index and `limit` does not exceed the largest `int`. -/
theorem FindLowestPoint_limit_exact (i limit : Int) (h0 : 0 ≤ i)
    (h : i ≤ 9223372036854775807 → i - limit ≤ 9223372036854775807) :
    FindLowestPoint.limit i limit = i - limit := by
  unfold FindLowestPoint.limit
  split_ifs with hc
  · obtain ⟨h1, h2⟩ := hc
    simp only [isInt64, decide_eq_true_eq] at h1 h2
    have h3 := h h1.2
    unfold wrapInt64
    omega
  · rfl

theorem FindLowestPoint_limit_of_nonneg (i limit : Int) (h0 : 0 ≤ i) (hl : 0 ≤ limit) :
    FindLowestPoint.limit i limit = i - limit :=
  FindLowestPoint_limit_exact i limit h0 (fun h => by omega)

/-- C10. For `0 ≤ startIndex < len(values)` and `limit ≥ 0`, `FindLowestPoint` returns an
index `r` with `max(0, startIndex - limit) ≤ r ≤ startIndex`. -/
theorem FindLowestPoint_window (values : List ℚ) (startIndex limit : Int)
    (h0 : 0 ≤ startIndex) (h1 : startIndex < (values.length : Int)) (hl : 0 ≤ limit) :
    ∃ r, FindLowestPoint values startIndex limit = some r ∧
      max 0 (startIndex - limit) ≤ r ∧ r ≤ startIndex := by
  obtain ⟨v, hv⟩ := idx_eq_some_of_lt values startIndex h0 h1
  obtain ⟨r, hr, hb⟩ :=
    FindLowestPoint_loop_bounds values (startIndex - limit) (startIndex - 1) v startIndex
      (by omega)
  refine ⟨r, ?_, ?_, ?_⟩
  · rw [FindLowestPoint, hv]
    simp only
    rw [FindLowestPoint_limit_of_nonneg startIndex limit h0 hl]
    exact hr
  · rcases hb with rfl | ⟨h2, h3, h4⟩
    · exact max_le h0 (by omega)
    · exact max_le h3 (by omega)
  · rcases hb with rfl | ⟨h2, h3, h4⟩
    · exact le_refl _
    · omega

/-- Witness for C10: a six-element profile searched from index 4 with limit 3. -/
theorem FindLowestPoint_window_witness :
    (0 : Int) ≤ 4 ∧ (4 : Int) < (([5, 1, 4, 2, 3, 0] : List ℚ).length : Int) ∧ (0 : Int) ≤ 3 ∧
      ∃ r, FindLowestPoint [5, 1, 4, 2, 3, 0] 4 3 = some r ∧ max 0 (4 - 3) ≤ r ∧ r ≤ 4 :=
  ⟨by decide, by decide, by decide,
    FindLowestPoint_window [5, 1, 4, 2, 3, 0] 4 3 (by decide) (by decide) (by decide)⟩

/-! ## FindLowestPoint, FindZeroPoint and DetectEdges: shared lemmas -/

theorem idx_some_bounds {xs : List ℚ} {i : Int} {v : ℚ} (h : idx xs i = some v) :
    0 ≤ i ∧ i < (xs.length : Int) := by
  unfold idx at h
  split at h
  · cases h
  · rename_i hneg
    have h2 := (List.getElem?_eq_some_iff.mp h).1
    omega

theorem FindLowestPoint_loop_spec (values : List ℚ) (limit s : Int) (i : Int) (min : ℚ) (j : Int)
    (hi : i < (values.length : Int)) (hij : i < j) (hjs : j ≤ s)
    (hj : idx values j = some min)
    (inv1 : ∀ k vk, i < k → k ≤ s → idx values k = some vk → min ≤ vk)
    (inv2 : ∀ k vk, j < k → k ≤ s → idx values k = some vk → min < vk) :
    ∃ r vr, FindLowestPoint.loop values limit i min j = some r ∧ idx values r = some vr ∧
      (r = j ∨ (limit < r ∧ 0 ≤ r ∧ r ≤ i)) ∧ vr ≤ min ∧
      (∀ k vk, limit < k → k ≤ s → idx values k = some vk → vr ≤ vk) ∧
      (∀ k vk, r < k → k ≤ s → idx values k = some vk → vr < vk) := by
  induction i, min, j using FindLowestPoint.loop.induct values limit with
  | case1 i min j hg hnone =>
    obtain ⟨v, hv⟩ := idx_eq_some_of_lt values i hg.2 hi
    rw [hv] at hnone
    cases hnone
  | case2 i min j hg v hv hlt ih =>
    have h1 : ∀ k vk, i - 1 < k → k ≤ s → idx values k = some vk → v ≤ vk := by
      intro k vk hk1 hk2 hk
      rcases eq_or_lt_of_le (show i ≤ k by omega) with heq | hlt2
      · subst heq
        rw [hv] at hk
        cases hk
        exact le_refl _
      · exact le_trans (le_of_lt hlt) (inv1 k vk hlt2 hk2 hk)
    have h2 : ∀ k vk, i < k → k ≤ s → idx values k = some vk → v < vk := by
      intro k vk hk1 hk2 hk
      exact lt_of_lt_of_le hlt (inv1 k vk hk1 hk2 hk)
    obtain ⟨r, vr, hr, hvr, hb, hle, hmin, htie⟩ :=
      ih (by omega) (by omega) (by omega) hv h1 h2
    refine ⟨r, vr, ?_, hvr, ?_, le_trans hle (le_of_lt hlt), hmin, htie⟩
    · rw [FindLowestPoint.loop, dif_pos hg, hv]
      simp only
      rw [if_pos hlt]
      exact hr
    · right
      rcases hb with rfl | ⟨h3, h4, h5⟩
      · exact ⟨hg.1, hg.2, le_refl _⟩
      · exact ⟨h3, h4, by omega⟩
  | case3 i min j hg v hv hlt ih =>
    have h1 : ∀ k vk, i - 1 < k → k ≤ s → idx values k = some vk → min ≤ vk := by
      intro k vk hk1 hk2 hk
      rcases eq_or_lt_of_le (show i ≤ k by omega) with heq | hlt2
      · subst heq
        rw [hv] at hk
        cases hk
        exact not_lt.mp hlt
      · exact inv1 k vk hlt2 hk2 hk
    obtain ⟨r, vr, hr, hvr, hb, hle, hmin, htie⟩ :=
      ih (by omega) (by omega) hjs hj h1 inv2
    refine ⟨r, vr, ?_, hvr, ?_, hle, hmin, htie⟩
    · rw [FindLowestPoint.loop, dif_pos hg, hv]
      simp only
      rw [if_neg hlt]
      exact hr
    · rcases hb with rfl | ⟨h3, h4, h5⟩
      · exact Or.inl rfl
      · exact Or.inr ⟨h3, h4, by omega⟩
  | case4 i min j hg =>
    refine ⟨j, min, ?_, hj, Or.inl rfl, le_refl _, ?_, inv2⟩
    · rw [FindLowestPoint.loop, dif_neg hg]
    · intro k vk hk1 hk2 hk
      have hk0 := (idx_some_bounds hk).1
      exact inv1 k vk (by
        by_contra hcon
        exact hg ⟨by omega, by omega⟩) hk2 hk

theorem FindLowestPoint_spec (values : List ℚ) (s limit : Int)
    (h0 : 0 ≤ s) (h1 : s < (values.length : Int)) :
    ∃ r vr vs, FindLowestPoint values s limit = some r ∧ idx values r = some vr ∧
      idx values s = some vs ∧
      (r = s ∨ (FindLowestPoint.limit s limit < r ∧ 0 ≤ r ∧ r < s)) ∧ vr ≤ vs ∧
      (∀ k vk, FindLowestPoint.limit s limit < k → k ≤ s → idx values k = some vk → vr ≤ vk) ∧
      (∀ k vk, r < k → k ≤ s → idx values k = some vk → vr < vk) := by
  obtain ⟨v, hv⟩ := idx_eq_some_of_lt values s h0 h1
  obtain ⟨r, vr, hr, hvr, hb, hle, hmin, htie⟩ :=
    FindLowestPoint_loop_spec values (FindLowestPoint.limit s limit) s (s - 1) v s (by omega)
      (by omega) (le_refl _) hv
      (by
        intro k vk hk1 hk2 hk
        have : k = s := by omega
        subst this
        rw [hv] at hk
        cases hk
        exact le_refl _)
      (by
        intro k vk hk1 hk2 hk
        omega)
  refine ⟨r, vr, v, ?_, hvr, hv, ?_, hle, hmin, htie⟩
  · rw [FindLowestPoint, hv]
    exact hr
  · rcases hb with rfl | ⟨h3, h4, h5⟩
    · exact Or.inl rfl
    · exact Or.inr ⟨h3, h4, by omega⟩

/-- Outcome of `FindZeroPoint` from an index inside the slice: the result is `0` when no
delta in `1..i` is negative, and `j + 1` for the greatest `j` in `1..i` with a negative
delta otherwise. -/
theorem FindZeroPoint_cases (d : List ℚ) (i : Nat) (hi : i < d.length) :
    (FindZeroPoint d (i : Int) = some 0 ∧
        ∀ j : Nat, ∀ hj : j < d.length, 1 ≤ j → j ≤ i → ¬ d[j] < 0) ∨
    (∃ j : Nat, ∃ hj : j < d.length, 1 ≤ j ∧ j ≤ i ∧ d[j] < 0 ∧
        (∀ k : Nat, ∀ hk : k < d.length, j < k → k ≤ i → ¬ d[k] < 0) ∧
        FindZeroPoint d (i : Int) = some ((j : Int) + 1)) := by
  induction i with
  | zero =>
    left
    refine ⟨?_, ?_⟩
    · rw [FindZeroPoint, dif_neg (by simp)]
      rfl
    · intro j hj h1 h2
      omega
  | succ k ih =>
    by_cases hneg : d[k + 1] < 0
    · right
      refine ⟨k + 1, hi, by omega, le_refl _, hneg, ?_, ?_⟩
      · intro t ht h1 h2
        omega
      · exact FindZeroPoint_last_neg d (k + 1) (k + 1) hi hneg hi (by omega) (le_refl _)
          (fun t h1 h2 ht => by omega)
    · rcases ih (by omega) with ⟨h0, hall⟩ | ⟨j, hj, hj1, hjk, hjneg, hlast, hres⟩
      · left
        have hall2 : ∀ j : Nat, ∀ hj : j < d.length, 1 ≤ j → j ≤ k + 1 → ¬ d[j] < 0 := by
          intro j hj h1 h2
          rcases Nat.eq_or_lt_of_le h2 with heq | hlt
          · subst heq
            exact hneg
          · exact hall j hj h1 (by omega)
        exact ⟨FindZeroPoint_none_neg d (k + 1) hi (fun j h1 h2 hj => hall2 j hj h1 h2), hall2⟩
      · right
        have hlast2 : ∀ t : Nat, ∀ ht : t < d.length, j < t → t ≤ k + 1 → ¬ d[t] < 0 := by
          intro t ht h1 h2
          rcases Nat.eq_or_lt_of_le h2 with heq | hlt
          · subst heq
            exact hneg
          · exact hlast t ht h1 (by omega)
        exact ⟨j, hj, hj1, by omega, hjneg, hlast2,
          FindZeroPoint_last_neg d (k + 1) j hj hjneg hi hj1 (by omega)
            (fun t h1 h2 ht => hlast2 t ht h1 h2)⟩

theorem FindZeroPoint_mono (d : List ℚ) (i i2 : Nat) (h : i ≤ i2) (hi2 : i2 < d.length) :
    ∃ b b2 : Int, FindZeroPoint d (i : Int) = some b ∧ FindZeroPoint d (i2 : Int) = some b2 ∧
      0 ≤ b ∧ b ≤ b2 ∧ b2 ≤ (i2 : Int) + 1 := by
  rcases FindZeroPoint_cases d i (by omega) with ⟨h0, hall⟩ | ⟨j, hj, hj1, hji, hjneg, hlast, hres⟩
  · rcases FindZeroPoint_cases d i2 hi2 with ⟨h02, hall2⟩ | ⟨j2, hj2, hj21, hji2, hjneg2, hlast2, hres2⟩
    · exact ⟨0, 0, h0, h02, le_refl _, le_refl _, by omega⟩
    · exact ⟨0, (j2 : Int) + 1, h0, hres2, le_refl _, by omega, by omega⟩
  · rcases FindZeroPoint_cases d i2 hi2 with ⟨h02, hall2⟩ | ⟨j2, hj2, hj21, hji2, hjneg2, hlast2, hres2⟩
    · exact absurd hjneg (hall2 j hj hj1 (by omega))
    · refine ⟨(j : Int) + 1, (j2 : Int) + 1, hres, hres2, by omega, ?_, by omega⟩
      have : j ≤ j2 := by
        by_contra hcon
        exact hlast2 j hj (by omega) (by omega) hjneg
      omega

theorem DetectEdges_some_iff
    (sortSlice : (Maximum → Maximum → Bool) → List Maximum → List Maximum)
    (points : List ℚ) (n : Nat) (limit : Int) (e : Int × Int × Int × Int) :
    DetectEdges sortSlice points n limit = some e ↔
      ∃ avg deltas m m0 m1 m2 b1 b2 b3 r1 r2 r3,
        ComputeAverages points n = some avg ∧ ComputeDeltas avg = some deltas ∧
        DetectEdges.m sortSlice deltas = some m ∧
        m[0]? = some m0 ∧ m[1]? = some m1 ∧ m[2]? = some m2 ∧
        FindZeroPoint deltas m0.Index = some b1 ∧
        FindZeroPoint deltas m1.Index = some b2 ∧
        FindZeroPoint deltas m2.Index = some b3 ∧
        FindLowestPoint points (b1 * 3) limit = some r1 ∧
        FindLowestPoint points (b2 * 3) limit = some r2 ∧
        FindLowestPoint points (b3 * 3) limit = some r3 ∧
        e = (r1 + Threshold, r2 - Threshold, r2 + Threshold, r3 - Threshold) := by
  constructor
  · intro h
    simp only [DetectEdges, bind, Option.bind_eq_some, pure, Option.some.injEq] at h
    obtain ⟨avg, havg, deltas, hdeltas, m, hm, m0, hm0, b1, hb1, r1, hr1, m1, hm1, b2, hb2, r2,
      hr2, m2, hm2, b3, hb3, r3, hr3, he⟩ := h
    exact ⟨avg, deltas, m, m0, m1, m2, b1, b2, b3, r1, r2, r3, havg, hdeltas, hm, hm0, hm1, hm2,
      hb1, hb2, hb3, hr1, hr2, hr3, he.symm⟩
  · rintro ⟨avg, deltas, m, m0, m1, m2, b1, b2, b3, r1, r2, r3, havg, hdeltas, hm, hm0, hm1, hm2,
      hb1, hb2, hb3, hr1, hr2, hr3, he⟩
    simp only [DetectEdges, bind, Option.bind_eq_some, pure, Option.some.injEq]
    exact ⟨avg, havg, deltas, hdeltas, m, hm, m0, hm0, b1, hb1, r1, hr1, m1, hm1, b2, hb2, r2,
      hr2, m2, hm2, b3, hb3, r3, hr3, he.symm⟩

theorem FindLowestPoint_some_start {values : List ℚ} {s limit r : Int}
    (h : FindLowestPoint values s limit = some r) : 0 ≤ s ∧ s < (values.length : Int) := by
  unfold FindLowestPoint at h
  split at h
  · cases h
  · rename_i v hv
    exact idx_some_bounds hv

theorem FindLowestPoint_mono (values : List ℚ) (s s2 limit : Int)
    (h0 : 0 ≤ s) (h : s ≤ s2) (h2 : s2 < (values.length : Int))
    (hl : (values.length : Int) - 9223372036854775808 ≤ limit) :
    ∃ r r2, FindLowestPoint values s limit = some r ∧ FindLowestPoint values s2 limit = some r2 ∧
      r ≤ r2 := by
  obtain ⟨r, vr, vs, hr, hvr, hvs, hb, hle, hmin, htie⟩ :=
    FindLowestPoint_spec values s limit h0 (by omega)
  obtain ⟨r2, vr2, vs2, hr2, hvr2, hvs2, hb2, hle2, hmin2, htie2⟩ :=
    FindLowestPoint_spec values s2 limit (by omega) h2
  rw [FindLowestPoint_limit_exact s limit h0 (fun _ => by omega)] at hb hmin
  rw [FindLowestPoint_limit_exact s2 limit (by omega) (fun _ => by omega)] at hb2 hmin2
  refine ⟨r, r2, hr, hr2, ?_⟩
  by_contra hcon
  have hlt : r2 < r := by omega
  have hrs : r ≤ s := by
    rcases hb with rfl | ⟨_, _, h5⟩
    · exact le_refl _
    · omega
  have hw2 : s2 - limit < r2 := by
    rcases hb2 with rfl | ⟨h3, _, _⟩
    · omega
    · exact h3
  have h1 : vr2 < vr := htie2 r vr hlt (by omega) hvr
  have h3 : vr ≤ vr2 := hmin r2 vr2 (by omega) (by omega) hvr2
  exact absurd h1 (not_lt.mpr h3)

theorem DetermineMaximums_mem {d : List ℚ} {m : Maximum} (hm : m ∈ DetermineMaximums d) :
    ∃ (i : Nat) (h : i + 1 < d.length), 1 ≤ i ∧ m = ⟨(i : Int), d[i]⟩ ∧
      d[i] > d[i - 1] ∧ d[i] > d[i + 1] := by
  rw [DetermineMaximums, DetermineMaximums_loop_mem] at hm
  rcases hm with hm | ⟨t, ht, h1, rest⟩
  · cases hm
  · exact ⟨t, ht, h1, rest⟩

theorem DetectEdges_m_some
    (sortSlice : (Maximum → Maximum → Bool) → List Maximum → List Maximum)
    (hS : SortSliceContract sortSlice) (d : List ℚ) (m : List Maximum)
    (hm : DetectEdges.m sortSlice d = some m) :
    ∃ m0 m1 m2, m = [m0, m1, m2] ∧ (∀ a ∈ [m0, m1, m2], a ∈ DetermineMaximums d) ∧
      m0.Index ≤ m1.Index ∧ m1.Index ≤ m2.Index := by
  obtain ⟨hperm, _⟩ := SortMaximums_sorted sortSlice hS (DetermineMaximums d)
  obtain ⟨hperm2, hsorted2⟩ := OrderMaximums_sorted sortSlice hS
    ((SortMaximums sortSlice (DetermineMaximums d)).take 3)
  simp only [DetectEdges.m] at hm
  split at hm
  · cases hm
  · rename_i hlen
    simp only [Option.some.injEq] at hm
    subst hm
    have hlen2 : (OrderMaximums sortSlice
        ((SortMaximums sortSlice (DetermineMaximums d)).take 3)).length = 3 := by
      rw [hperm2.length_eq, List.length_take]
      omega
    generalize hs : SortMaximums sortSlice (DetermineMaximums d) = s at *
    generalize hmm : OrderMaximums sortSlice (s.take 3) = m at *
    match m, hlen2 with
    | [m0, m1, m2], _ =>
      refine ⟨m0, m1, m2, rfl, ?_, ?_, ?_⟩
      · intro a ha
        exact hperm.mem_iff.mp (List.mem_of_mem_take (hperm2.mem_iff.mp ha))
      · exact (List.pairwise_cons.mp hsorted2).1 m1 (by simp)
      · exact (List.pairwise_cons.mp (List.pairwise_cons.mp hsorted2).2).1 m2 (by simp)

theorem DetectEdges_m_isSome
    (sortSlice : (Maximum → Maximum → Bool) → List Maximum → List Maximum)
    (hS : SortSliceContract sortSlice) (d : List ℚ) (h3 : 3 ≤ (DetermineMaximums d).length) :
    ∃ m, DetectEdges.m sortSlice d = some m := by
  have hlen := (SortMaximums_sorted sortSlice hS (DetermineMaximums d)).1.length_eq
  refine ⟨OrderMaximums sortSlice ((SortMaximums sortSlice (DetermineMaximums d)).take 3), ?_⟩
  simp only [DetectEdges.m]
  rw [if_neg (by omega)]

theorem DetectEdges_m_none
    (sortSlice : (Maximum → Maximum → Bool) → List Maximum → List Maximum)
    (hS : SortSliceContract sortSlice) (d : List ℚ) (h3 : (DetermineMaximums d).length < 3) :
    DetectEdges.m sortSlice d = none := by
  have hlen := (SortMaximums_sorted sortSlice hS (DetermineMaximums d)).1.length_eq
  simp only [DetectEdges.m]
  rw [if_pos (by omega)]

theorem ComputeAverages_length_three (points avg : List ℚ)
    (h : ComputeAverages points 3 = some avg) :
    points.length ≤ 3 * avg.length ∧ 3 * avg.length < points.length + 3 := by
  obtain ⟨c, hc, hle, hlt⟩ := padded_length_eq points.length 3 (by decide)
  rw [ComputeAverages_eq points 3 c (by decide) hc] at h
  simp only [Option.some.injEq] at h
  subst h
  rw [List.length_map, List.length_range]
  omega

theorem ComputeDeltas_length (avg deltas : List ℚ) (h : ComputeDeltas avg = some deltas) :
    deltas.length + 1 = avg.length := by
  cases avg with
  | nil =>
    simp [ComputeDeltas, idx] at h
  | cons x xs =>
    rw [ComputeDeltas_cons] at h
    simp only [Option.some.injEq] at h
    subst h
    simp

/-! ## FindLowestPoint: minimum and tie-break (C11, C12) -/

/-- Counterexample to C11: on `values = [0, 1]` with `startIndex = 1` and `limit = 1` the
claimed window `max(0, startIndex - limit) .. startIndex` is `0 .. 1`, but the search
returns index 1 (value 1) although `values[0] = 0` is smaller: index
`startIndex - limit = 0` is not inspected. -/
theorem FindLowestPoint_not_minimum :
    FindLowestPoint [0, 1] 1 1 = some 1 ∧ idx [0, 1] 1 = some 1 ∧
      max (0 : Int) (1 - 1) ≤ 0 ∧ (0 : Int) ≤ 1 ∧ idx [0, 1] 0 = some 0 ∧ ¬ ((1 : ℚ) ≤ 0) := by
  refine ⟨?_, ?_, ?_, ?_, ?_, ?_⟩ <;> with_unfolding_all decide

/-- C11 (amended). For `0 ≤ startIndex < len(values)` and `limit ≥ 0`, the returned index
`r` holds the minimum of the inspected window, which is `startIndex` itself and every `k`
with `max(0, startIndex - limit + 1) ≤ k ≤ startIndex` (a window of `limit` samples):
`values[r] ≤ values[k]` for each of them. -/
theorem FindLowestPoint_minimum (values : List ℚ) (startIndex limit : Int)
    (h0 : 0 ≤ startIndex) (h1 : startIndex < (values.length : Int)) (_hl : 0 ≤ limit) :
    ∃ r vr, FindLowestPoint values startIndex limit = some r ∧ idx values r = some vr ∧
      (∀ vs, idx values startIndex = some vs → vr ≤ vs) ∧
      (∀ k vk, max 0 (startIndex - limit + 1) ≤ k → k ≤ startIndex →
        idx values k = some vk → vr ≤ vk) := by
  obtain ⟨r, vr, vs, hr, hvr, hvs, _, hle, hmin, _⟩ :=
    FindLowestPoint_spec values startIndex limit h0 h1
  rw [FindLowestPoint_limit_of_nonneg startIndex limit h0 _hl] at hmin
  refine ⟨r, vr, hr, hvr, ?_, ?_⟩
  · intro vs2 hvs2
    rw [hvs] at hvs2
    cases hvs2
    exact hle
  · intro k vk hk1 hk2 hk
    have hk3 : startIndex - limit + 1 ≤ k := le_trans (le_max_right _ _) hk1
    exact hmin k vk (by omega) hk2 hk

/-- Witness for C11 (amended): a six-element profile searched from index 4 with limit 3. -/
theorem FindLowestPoint_minimum_witness :
    (0 : Int) ≤ 4 ∧ (4 : Int) < (([5, 1, 4, 2, 3, 0] : List ℚ).length : Int) ∧ (0 : Int) ≤ 3 ∧
      ∃ r vr, FindLowestPoint [5, 1, 4, 2, 3, 0] 4 3 = some r ∧
        idx [5, 1, 4, 2, 3, 0] r = some vr ∧
        (∀ vs, idx [5, 1, 4, 2, 3, 0] 4 = some vs → vr ≤ vs) ∧
        (∀ k vk, max 0 (4 - 3 + 1) ≤ k → k ≤ 4 →
          idx [5, 1, 4, 2, 3, 0] k = some vk → vr ≤ vk) :=
  ⟨by decide, by decide, by decide,
    FindLowestPoint_minimum [5, 1, 4, 2, 3, 0] 4 3 (by decide) (by decide) (by decide)⟩

/-- C12. `FindLowestPoint` breaks ties in favour of the higher index: for
`0 ≤ startIndex < len(values)` and `limit ≥ 0`, every index `k` with
`r < k ≤ startIndex` above the returned index `r` has `values[k] > values[r]`. -/
theorem FindLowestPoint_tie (values : List ℚ) (startIndex limit : Int)
    (h0 : 0 ≤ startIndex) (h1 : startIndex < (values.length : Int)) (_hl : 0 ≤ limit) :
    ∃ r vr, FindLowestPoint values startIndex limit = some r ∧ idx values r = some vr ∧
      ∀ k vk, r < k → k ≤ startIndex → idx values k = some vk → vk > vr := by
  obtain ⟨r, vr, vs, hr, hvr, _, _, _, _, htie⟩ :=
    FindLowestPoint_spec values startIndex limit h0 h1
  exact ⟨r, vr, hr, hvr, htie⟩

/-- Witness for C12: the minimum value 1 occurs at indices 1 and 3; index 3 is returned. -/
theorem FindLowestPoint_tie_witness :
    (0 : Int) ≤ 4 ∧ (4 : Int) < (([5, 1, 4, 1, 3, 0] : List ℚ).length : Int) ∧ (0 : Int) ≤ 10 ∧
      FindLowestPoint [5, 1, 4, 1, 3, 0] 4 10 = some 3 ∧
      ∃ r vr, FindLowestPoint [5, 1, 4, 1, 3, 0] 4 10 = some r ∧
        idx [5, 1, 4, 1, 3, 0] r = some vr ∧
        ∀ k vk, r < k → k ≤ 4 → idx [5, 1, 4, 1, 3, 0] k = some vk → vk > vr :=
  ⟨by decide, by decide, by decide, by with_unfolding_all decide,
    FindLowestPoint_tie [5, 1, 4, 1, 3, 0] 4 10 (by decide) (by decide) (by decide)⟩

/-! ## DetectEdges (C13, C14, C15) -/

/-- Evaluation for C13 (code defect): with block size 2 on the 16-pixel profile
`[1,1,0,0,1,1,0,0,2,2,0,0,3,3,0,0]` the middle zero point is block `b2 = 3`.  The source
starts the local-minimum search at `b2 * 3 = 9` and returns `edge2 = 7 - 5 = 2`, while the
start index `b2 * n = 6` named by the claim gives `6 - 5 = 1`. -/
theorem DetectEdges_block_size_two :
    ComputeAverages [1, 1, 0, 0, 1, 1, 0, 0, 2, 2, 0, 0, 3, 3, 0, 0] 2
      = some [1, 0, 1, 0, 2, 0, 3, 0] ∧
    ComputeDeltas [1, 0, 1, 0, 2, 0, 3, 0] = some [-1, 1, -1, 2, -2, 3, -3] ∧
    DetectEdges.m insertionSort [-1, 1, -1, 2, -2, 3, -3] = some [⟨1, 1⟩, ⟨3, 2⟩, ⟨5, 3⟩] ∧
    FindZeroPoint [-1, 1, -1, 2, -2, 3, -3] 3 = some 3 ∧
    FindLowestPoint [1, 1, 0, 0, 1, 1, 0, 0, 2, 2, 0, 0, 3, 3, 0, 0] (3 * 2) 10 = some 6 ∧
    FindLowestPoint [1, 1, 0, 0, 1, 1, 0, 0, 2, 2, 0, 0, 3, 3, 0, 0] (3 * 3) 10 = some 7 ∧
    DetectEdges insertionSort [1, 1, 0, 0, 1, 1, 0, 0, 2, 2, 0, 0, 3, 3, 0, 0] 2 10
      = some (5, 2, 12, 10) := by
  refine ⟨?_, ?_, ?_, ?_, ?_, ?_, ?_⟩ <;> with_unfolding_all decide

/-- C14. Whenever `DetectEdges` returns, the inner pair is `edge2 = center - 5` and
`edge3 = center + 5` for one and the same `center`, the result of the local-minimum
search started from the middle zero point (`b2 * 3` in the source), so
`edge3 - edge2 = 2 * Threshold = 10`. -/
theorem DetectEdges_inner_pair
    (sortSlice : (Maximum → Maximum → Bool) → List Maximum → List Maximum)
    (points : List ℚ) (n : Nat) (limit e1 e2 e3 e4 : Int)
    (h : DetectEdges sortSlice points n limit = some (e1, e2, e3, e4)) :
    ∃ avg deltas m m1 b2 center,
      ComputeAverages points n = some avg ∧ ComputeDeltas avg = some deltas ∧
      DetectEdges.m sortSlice deltas = some m ∧ m[1]? = some m1 ∧
      FindZeroPoint deltas m1.Index = some b2 ∧
      FindLowestPoint points (b2 * 3) limit = some center ∧
      e2 = center - 5 ∧ e3 = center + 5 ∧ e3 - e2 = 2 * Threshold ∧ e3 - e2 = 10 := by
  obtain ⟨avg, deltas, m, m0, m1, m2, b1, b2, b3, r1, r2, r3, havg, hdeltas, hm, hm0, hm1, hm2,
    hb1, hb2, hb3, hr1, hr2, hr3, he⟩ := (DetectEdges_some_iff sortSlice points n limit _).mp h
  simp only [Prod.mk.injEq, Threshold] at he
  obtain ⟨_, he2, he3, _⟩ := he
  refine ⟨avg, deltas, m, m1, b2, r2, havg, hdeltas, hm, hm1, hb2, hr2, he2, he3, ?_, ?_⟩
  · simp only [Threshold]
    omega
  · omega

/-- Witness for C14: a 24-pixel profile with three peaks in its delta sequence. -/
theorem DetectEdges_inner_pair_witness :
    DetectEdges insertionSort
        [1, 1, 1, 0, 0, 0, 1, 1, 1, 0, 0, 0, 2, 2, 2, 0, 0, 0, 3, 3, 3, 0, 0, 0] 3 10
      = some (5, 4, 14, 10) ∧
    ∃ avg deltas m m1 b2 center,
      ComputeAverages [1, 1, 1, 0, 0, 0, 1, 1, 1, 0, 0, 0, 2, 2, 2, 0, 0, 0, 3, 3, 3, 0, 0, 0] 3
        = some avg ∧ ComputeDeltas avg = some deltas ∧
      DetectEdges.m insertionSort deltas = some m ∧ m[1]? = some m1 ∧
      FindZeroPoint deltas m1.Index = some b2 ∧
      FindLowestPoint [1, 1, 1, 0, 0, 0, 1, 1, 1, 0, 0, 0, 2, 2, 2, 0, 0, 0, 3, 3, 3, 0, 0, 0]
        (b2 * 3) 10 = some center ∧
      (4 : Int) = center - 5 ∧ (14 : Int) = center + 5 ∧ (14 : Int) - 4 = 2 * Threshold ∧
      (14 : Int) - 4 = 10 :=
  ⟨by with_unfolding_all decide,
    DetectEdges_inner_pair insertionSort
      [1, 1, 1, 0, 0, 0, 1, 1, 1, 0, 0, 0, 2, 2, 2, 0, 0, 0, 3, 3, 3, 0, 0, 0] 3 10 5 4 14 10
      (by with_unfolding_all decide)⟩

/-- C15. For a profile whose delta sequence has fewer than 3 local maxima `DetectEdges`
fails (the reslice `max[:3]` panics) instead of returning four edge coordinates. -/
theorem DetectEdges_fewer_than_three
    (sortSlice : (Maximum → Maximum → Bool) → List Maximum → List Maximum)
    (hS : SortSliceContract sortSlice) (points : List ℚ) (n : Nat) (limit : Int)
    (avg deltas : List ℚ)
    (havg : ComputeAverages points n = some avg) (hdeltas : ComputeDeltas avg = some deltas)
    (h3 : (DetermineMaximums deltas).length < 3) :
    DetectEdges.m sortSlice deltas = none ∧ DetectEdges sortSlice points n limit = none := by
  have hnone := DetectEdges_m_none sortSlice hS deltas h3
  refine ⟨hnone, ?_⟩
  rw [Option.eq_none_iff_forall_not_mem]
  intro e he
  obtain ⟨avg2, deltas2, m, _, _, _, _, _, _, _, _, _, havg2, hdeltas2, hm, _⟩ :=
    (DetectEdges_some_iff sortSlice points n limit e).mp he
  rw [havg] at havg2
  cases havg2
  rw [hdeltas] at hdeltas2
  cases hdeltas2
  rw [hnone] at hm
  cases hm

/-- Witness for C15: a six-pixel profile with a single delta and no local maximum. -/
theorem DetectEdges_fewer_than_three_witness :
    SortSliceContract insertionSort ∧
    ComputeAverages [1, 2, 3, 4, 5, 6] 3 = some [2, 5] ∧
    ComputeDeltas [2, 5] = some [3] ∧
    (DetermineMaximums [3]).length < 3 ∧
    DetectEdges.m insertionSort [3] = none ∧
    DetectEdges insertionSort [1, 2, 3, 4, 5, 6] 3 10 = none :=
  ⟨insertionSort_contract, by with_unfolding_all decide, by with_unfolding_all decide,
    by with_unfolding_all decide,
    DetectEdges_fewer_than_three insertionSort insertionSort_contract [1, 2, 3, 4, 5, 6] 3 10
      [2, 5] [3] (by with_unfolding_all decide) (by with_unfolding_all decide)
      (by with_unfolding_all decide)⟩

/-! ## Zero points and edge ranges (C17, C18) -/

/-- Counterexample to C17: in `d = [-5, -1, -5]` index 1 is a local maximum with a
negative delta; `FindZeroPoint d 1` sees `d[1] < 0` at once and returns `2`, which is
not `≤ 1`. -/
theorem FindZeroPoint_after_peak :
    (⟨1, -1⟩ : Maximum) ∈ DetermineMaximums [-5, -1, -5] ∧
      FindZeroPoint [-5, -1, -5] 1 = some 2 ∧ ¬ ((2 : Int) ≤ 1) := by
  refine ⟨?_, ?_, ?_⟩ <;> with_unfolding_all decide

/-- C17 (amended). For every candidate `(p, d[p])` reported by `DetermineMaximums d`,
`b = FindZeroPoint d p` returns with `0 ≤ b ≤ p + 1`; `b ≤ p` when the peak delta is
non-negative and `b = p + 1` when it is negative; `d[k] ≥ 0` for every `k` with
`b ≤ k ≤ p` and `k ≥ 1`; and if `b > 0` then `d[b-1] < 0`. -/
theorem FindZeroPoint_block_start (d : List ℚ) (m : Maximum) (hm : m ∈ DetermineMaximums d) :
    ∃ b, FindZeroPoint d m.Index = some b ∧ 0 ≤ b ∧ b ≤ m.Index + 1 ∧
      (0 ≤ m.Value → b ≤ m.Index) ∧ (m.Value < 0 → b = m.Index + 1) ∧
      (∀ k v, b ≤ k → k ≤ m.Index → 1 ≤ k → idx d k = some v → 0 ≤ v) ∧
      (0 < b → ∃ v, idx d (b - 1) = some v ∧ v < 0) := by
  obtain ⟨p, hp, hp1, rfl, _, _⟩ := DetermineMaximums_mem hm
  simp only
  rcases FindZeroPoint_cases d p (by omega) with ⟨h0, hall⟩ | ⟨j, hj, hj1, hjp, hjneg, hlast, hres⟩
  · refine ⟨0, h0, le_refl _, by omega, fun _ => by omega, ?_, ?_, ?_⟩
    · intro hneg
      exact absurd hneg (hall p (by omega) hp1 (le_refl _))
    · intro k v hk0 hkp hk1 hkv
      have hk2 : k = ((k.toNat : Nat) : Int) := by omega
      rw [hk2, idx_natCast] at hkv
      obtain ⟨hlt, rfl⟩ := List.getElem?_eq_some_iff.mp hkv
      exact not_lt.mp (hall k.toNat hlt (by omega) (by omega))
    · intro hpos
      exact absurd hpos (lt_irrefl _)
  · refine ⟨(j : Int) + 1, hres, by omega, by omega, ?_, ?_, ?_, ?_⟩
    · intro hnn
      have hne : j ≠ p := by
        rintro rfl
        exact absurd hjneg (not_lt.mpr hnn)
      omega
    · intro hneg
      have : j = p := by
        by_contra hne
        exact hlast p (by omega) (by omega) (le_refl _) hneg
      omega
    · intro k v hk0 hkp hk1 hkv
      have hk2 : k = ((k.toNat : Nat) : Int) := by omega
      rw [hk2, idx_natCast] at hkv
      obtain ⟨hlt, rfl⟩ := List.getElem?_eq_some_iff.mp hkv
      exact not_lt.mp (hlast k.toNat hlt (by omega) (by omega))
    · intro _
      refine ⟨d[j], ?_, hjneg⟩
      have : (j : Int) + 1 - 1 = (j : Int) := by omega
      rw [this, idx_natCast]
      exact List.getElem?_eq_getElem hj

/-- Witness for C17 (amended): the peak at index 3 of `[-1, -1, 2, 3, 1]`. -/
theorem FindZeroPoint_block_start_witness :
    (⟨3, 3⟩ : Maximum) ∈ DetermineMaximums [-1, -1, 2, 3, 1] ∧
    FindZeroPoint [-1, -1, 2, 3, 1] 3 = some 2 ∧
    ∃ b, FindZeroPoint [-1, -1, 2, 3, 1] (⟨3, 3⟩ : Maximum).Index = some b ∧ 0 ≤ b ∧
      b ≤ (⟨3, 3⟩ : Maximum).Index + 1 ∧
      (0 ≤ (⟨3, 3⟩ : Maximum).Value → b ≤ (⟨3, 3⟩ : Maximum).Index) ∧
      ((⟨3, 3⟩ : Maximum).Value < 0 → b = (⟨3, 3⟩ : Maximum).Index + 1) ∧
      (∀ k v, b ≤ k → k ≤ (⟨3, 3⟩ : Maximum).Index → 1 ≤ k →
        idx [-1, -1, 2, 3, 1] k = some v → 0 ≤ v) ∧
      (0 < b → ∃ v, idx [-1, -1, 2, 3, 1] (b - 1) = some v ∧ v < 0) :=
  ⟨by with_unfolding_all decide, by with_unfolding_all decide,
    FindZeroPoint_block_start [-1, -1, 2, 3, 1] ⟨3, 3⟩ (by with_unfolding_all decide)⟩

/-- Counterexample to C18: on a 24-pixel staircase profile (no negative delta) every
zero point is block 0, every local-minimum search returns pixel 0, and `DetectEdges`
returns `(5, -5, 5, -5)`: `edge2` and `edge4` are negative, not pixel indices. -/
theorem DetectEdges_negative_edge :
    DetectEdges insertionSort
        [0, 0, 0, 0, 0, 0, 1, 1, 1, 1, 1, 1, 3, 3, 3, 3, 3, 3, 6, 6, 6, 6, 6, 6] 3 10
      = some (5, -5, 5, -5) ∧ ¬ ((0 : Int) ≤ -5) := by
  refine ⟨?_, ?_⟩ <;> with_unfolding_all decide

/-- C18 (amended). Whenever `DetectEdges(points, 3, limit)` returns, the three refined
boundaries `edge1 - 5`, `edge2 + 5 = edge3 - 5` and `edge4 + 5` are pixel indices in
`0 .. len(points) - 1`; the edges themselves are these indices shifted by the margin 5
without clamping, so `5 ≤ edge1, edge3 < len(points) + 5` and
`-5 ≤ edge2, edge4 < len(points) - 5`. -/
theorem DetectEdges_edge_range
    (sortSlice : (Maximum → Maximum → Bool) → List Maximum → List Maximum)
    (points : List ℚ) (limit e1 e2 e3 e4 : Int)
    (h : DetectEdges sortSlice points 3 limit = some (e1, e2, e3, e4)) :
    (0 ≤ e1 - 5 ∧ e1 - 5 < (points.length : Int)) ∧
    (0 ≤ e2 + 5 ∧ e2 + 5 < (points.length : Int)) ∧
    (0 ≤ e3 - 5 ∧ e3 - 5 < (points.length : Int)) ∧
    (0 ≤ e4 + 5 ∧ e4 + 5 < (points.length : Int)) := by
  obtain ⟨avg, deltas, m, m0, m1, m2, b1, b2, b3, r1, r2, r3, havg, hdeltas, hm, hm0, hm1, hm2,
    hb1, hb2, hb3, hr1, hr2, hr3, he⟩ := (DetectEdges_some_iff sortSlice points 3 limit _).mp h
  simp only [Prod.mk.injEq, Threshold] at he
  obtain ⟨he1, he2, he3, he4⟩ := he
  have key : ∀ s r : Int, FindLowestPoint points s limit = some r →
      0 ≤ r ∧ r < (points.length : Int) := by
    intro s r hr
    obtain ⟨hs0, hs1⟩ := FindLowestPoint_some_start hr
    obtain ⟨r', vr, _, hr', hvr, _, _, _, _, _⟩ := FindLowestPoint_spec points s limit hs0 hs1
    rw [hr] at hr'
    cases hr'
    exact idx_some_bounds hvr
  have k1 := key _ _ hr1
  have k2 := key _ _ hr2
  have k3 := key _ _ hr3
  subst he1 he2 he3 he4
  refine ⟨⟨by omega, by omega⟩, ⟨by omega, by omega⟩, ⟨by omega, by omega⟩, ⟨by omega, by omega⟩⟩

/-- Witness for C18 (amended): the 24-pixel staircase profile. -/
theorem DetectEdges_edge_range_witness :
    DetectEdges insertionSort
        [0, 0, 0, 0, 0, 0, 1, 1, 1, 1, 1, 1, 3, 3, 3, 3, 3, 3, 6, 6, 6, 6, 6, 6] 3 10
      = some (5, -5, 5, -5) ∧
    ((0 : Int) ≤ 5 - 5 ∧ (5 : Int) - 5 <
      (([0, 0, 0, 0, 0, 0, 1, 1, 1, 1, 1, 1, 3, 3, 3, 3, 3, 3, 6, 6, 6, 6, 6, 6] : List ℚ).length
        : Int)) ∧
    ((0 : Int) ≤ -5 + 5 ∧ (-5 : Int) + 5 <
      (([0, 0, 0, 0, 0, 0, 1, 1, 1, 1, 1, 1, 3, 3, 3, 3, 3, 3, 6, 6, 6, 6, 6, 6] : List ℚ).length
        : Int)) ∧
    ((0 : Int) ≤ 5 - 5 ∧ (5 : Int) - 5 <
      (([0, 0, 0, 0, 0, 0, 1, 1, 1, 1, 1, 1, 3, 3, 3, 3, 3, 3, 6, 6, 6, 6, 6, 6] : List ℚ).length
        : Int)) ∧
    ((0 : Int) ≤ -5 + 5 ∧ (-5 : Int) + 5 <
      (([0, 0, 0, 0, 0, 0, 1, 1, 1, 1, 1, 1, 3, 3, 3, 3, 3, 3, 6, 6, 6, 6, 6, 6] : List ℚ).length
        : Int)) :=
  ⟨by with_unfolding_all decide,
    DetectEdges_edge_range insertionSort
      [0, 0, 0, 0, 0, 0, 1, 1, 1, 1, 1, 1, 3, 3, 3, 3, 3, 3, 6, 6, 6, 6, 6, 6] 10 5 (-5) 5 (-5)
      (by with_unfolding_all decide)⟩

/-! ## Bounds safety and ordering of the boundaries (C19, C20) -/

theorem DetectEdges_candidate_in_range (points avg deltas : List ℚ) (limit : Int)
    (havg : ComputeAverages points 3 = some avg) (hdeltas : ComputeDeltas avg = some deltas)
    (a : Maximum) (ha : a ∈ DetermineMaximums deltas) :
    ∃ b r, 1 ≤ a.Index ∧ a.Index + 1 < (deltas.length : Int) ∧
      FindZeroPoint deltas a.Index = some b ∧ 0 ≤ b ∧ b ≤ a.Index + 1 ∧
      0 ≤ b * 3 ∧ b * 3 < (points.length : Int) ∧
      FindLowestPoint points (b * 3) limit = some r := by
  obtain ⟨p, hp, hp1, rfl, _, _⟩ := DetermineMaximums_mem ha
  simp only
  obtain ⟨b, b2, hb, hb2, hb0, hle, hup⟩ := FindZeroPoint_mono deltas p p (le_refl _) (by omega)
  rw [hb] at hb2
  cases hb2
  have hl1 := ComputeAverages_length_three points avg havg
  have hl2 := ComputeDeltas_length avg deltas hdeltas
  have hb3 : b * 3 < (points.length : Int) := by omega
  obtain ⟨r, _, _, hr, _⟩ := FindLowestPoint_spec points (b * 3) limit (by omega) hb3
  exact ⟨b, r, by omega, by omega, hb, hb0, hup, by omega, hb3, hr⟩

/-- C19. For block size 3 and a profile whose delta sequence has at least 3 local maxima
(such a profile is non-empty), `DetectEdges(points, 3, limit)` runs without any
out-of-bounds access for every `limit`: each index passed to `FindZeroPoint` is a valid
index of `deltas`, each start index `b * 3` passed to `FindLowestPoint` satisfies
`0 ≤ b * 3 < len(points)`, and the call returns four edges. -/
theorem DetectEdges_returns
    (sortSlice : (Maximum → Maximum → Bool) → List Maximum → List Maximum)
    (hS : SortSliceContract sortSlice) (points avg deltas : List ℚ) (limit : Int)
    (havg : ComputeAverages points 3 = some avg) (hdeltas : ComputeDeltas avg = some deltas)
    (h3 : 3 ≤ (DetermineMaximums deltas).length) :
    points ≠ [] ∧
    ∃ m0 m1 m2 b1 b2 b3 e,
      DetectEdges.m sortSlice deltas = some [m0, m1, m2] ∧
      (0 ≤ m0.Index ∧ m0.Index < (deltas.length : Int)) ∧
      (0 ≤ m1.Index ∧ m1.Index < (deltas.length : Int)) ∧
      (0 ≤ m2.Index ∧ m2.Index < (deltas.length : Int)) ∧
      FindZeroPoint deltas m0.Index = some b1 ∧
      FindZeroPoint deltas m1.Index = some b2 ∧
      FindZeroPoint deltas m2.Index = some b3 ∧
      (0 ≤ b1 * 3 ∧ b1 * 3 < (points.length : Int)) ∧
      (0 ≤ b2 * 3 ∧ b2 * 3 < (points.length : Int)) ∧
      (0 ≤ b3 * 3 ∧ b3 * 3 < (points.length : Int)) ∧
      DetectEdges sortSlice points 3 limit = some e := by
  obtain ⟨m, hm⟩ := DetectEdges_m_isSome sortSlice hS deltas h3
  obtain ⟨m0, m1, m2, rfl, hmem, _, _⟩ := DetectEdges_m_some sortSlice hS deltas m hm
  obtain ⟨b1, r1, h11, h12, hb1, _, _, h15, h16, hr1⟩ :=
    DetectEdges_candidate_in_range points avg deltas limit havg hdeltas m0 (hmem m0 (by simp))
  obtain ⟨b2, r2, h21, h22, hb2, _, _, h25, h26, hr2⟩ :=
    DetectEdges_candidate_in_range points avg deltas limit havg hdeltas m1 (hmem m1 (by simp))
  obtain ⟨b3, r3, h31, h32, hb3, _, _, h35, h36, hr3⟩ :=
    DetectEdges_candidate_in_range points avg deltas limit havg hdeltas m2 (hmem m2 (by simp))
  refine ⟨?_, m0, m1, m2, b1, b2, b3, _, hm, ⟨by omega, by omega⟩, ⟨by omega, by omega⟩,
    ⟨by omega, by omega⟩, hb1, hb2, hb3, ⟨h15, h16⟩, ⟨h25, h26⟩, ⟨h35, h36⟩,
    (DetectEdges_some_iff sortSlice points 3 limit _).mpr
      ⟨avg, deltas, [m0, m1, m2], m0, m1, m2, b1, b2, b3, r1, r2, r3, havg, hdeltas, hm,
        rfl, rfl, rfl, hb1, hb2, hb3, hr1, hr2, hr3, rfl⟩⟩
  rintro rfl
  simp only [List.length_nil, Nat.cast_zero] at h16
  omega

/-- Witness for C19: a 24-pixel profile with three peaks in its delta sequence. -/
theorem DetectEdges_returns_witness :
    SortSliceContract insertionSort ∧
    ComputeAverages [1, 1, 1, 0, 0, 0, 1, 1, 1, 0, 0, 0, 2, 2, 2, 0, 0, 0, 3, 3, 3, 0, 0, 0] 3
      = some [1, 0, 1, 0, 2, 0, 3, 0] ∧
    ComputeDeltas [1, 0, 1, 0, 2, 0, 3, 0] = some [-1, 1, -1, 2, -2, 3, -3] ∧
    3 ≤ (DetermineMaximums [-1, 1, -1, 2, -2, 3, -3]).length ∧
    ∃ m0 m1 m2 b1 b2 b3 e,
      DetectEdges.m insertionSort [-1, 1, -1, 2, -2, 3, -3] = some [m0, m1, m2] ∧
      (0 ≤ m0.Index ∧ m0.Index < (([-1, 1, -1, 2, -2, 3, -3] : List ℚ).length : Int)) ∧
      (0 ≤ m1.Index ∧ m1.Index < (([-1, 1, -1, 2, -2, 3, -3] : List ℚ).length : Int)) ∧
      (0 ≤ m2.Index ∧ m2.Index < (([-1, 1, -1, 2, -2, 3, -3] : List ℚ).length : Int)) ∧
      FindZeroPoint [-1, 1, -1, 2, -2, 3, -3] m0.Index = some b1 ∧
      FindZeroPoint [-1, 1, -1, 2, -2, 3, -3] m1.Index = some b2 ∧
      FindZeroPoint [-1, 1, -1, 2, -2, 3, -3] m2.Index = some b3 ∧
      (0 ≤ b1 * 3 ∧ b1 * 3 < (([1, 1, 1, 0, 0, 0, 1, 1, 1, 0, 0, 0, 2, 2, 2, 0, 0, 0, 3, 3, 3,
        0, 0, 0] : List ℚ).length : Int)) ∧
      (0 ≤ b2 * 3 ∧ b2 * 3 < (([1, 1, 1, 0, 0, 0, 1, 1, 1, 0, 0, 0, 2, 2, 2, 0, 0, 0, 3, 3, 3,
        0, 0, 0] : List ℚ).length : Int)) ∧
      (0 ≤ b3 * 3 ∧ b3 * 3 < (([1, 1, 1, 0, 0, 0, 1, 1, 1, 0, 0, 0, 2, 2, 2, 0, 0, 0, 3, 3, 3,
        0, 0, 0] : List ℚ).length : Int)) ∧
      DetectEdges insertionSort
        [1, 1, 1, 0, 0, 0, 1, 1, 1, 0, 0, 0, 2, 2, 2, 0, 0, 0, 3, 3, 3, 0, 0, 0] 3 10 = some e :=
  ⟨insertionSort_contract, by with_unfolding_all decide, by with_unfolding_all decide,
    by with_unfolding_all decide,
    (DetectEdges_returns insertionSort insertionSort_contract
      [1, 1, 1, 0, 0, 0, 1, 1, 1, 0, 0, 0, 2, 2, 2, 0, 0, 0, 3, 3, 3, 0, 0, 0]
      [1, 0, 1, 0, 2, 0, 3, 0] [-1, 1, -1, 2, -2, 3, -3] 10
      (by with_unfolding_all decide) (by with_unfolding_all decide)
      (by with_unfolding_all decide)).2⟩

/-- Counterexample to C20: with `limit = -(2^63 - 11)` the subtraction `i - limit`
overflows for the start indices 12 and 18 but not for 6.  On the 27-pixel profile the search
from pixel 6 inspects nothing and returns 6, while the searches from 12 and 18 run down to
pixel 0 and return the global minimum at pixel 2: `DetectEdges` returns `(11, -3, 7, -3)`
and `edge1 - Threshold = 6 > 2 = edge2 + Threshold`.  Likewise on `[0, 1, 1]` with
`limit = -(2^63 - 2)` the search from index 1 returns 1 and the search from index 2
returns 0. -/
theorem DetectEdges_wrapped_limit :
    DetectEdges insertionSort
        [9, 9, 0, 9, 9, 9, 3, 3, 3, 9, 9, 9, 3, 3, 3, 9, 9, 9, 3, 3, 3, 9, 9, 9, 9, 9, 9] 3
        (-9223372036854775797) = some (11, -3, 7, -3) ∧
    ¬ ((11 : Int) - Threshold ≤ -3 + Threshold) ∧
    FindLowestPoint [0, 1, 1] 1 (-9223372036854775806) = some 1 ∧
    FindLowestPoint [0, 1, 1] 2 (-9223372036854775806) = some 0 ∧
    ¬ ((1 : Int) ≤ 0) := by
  refine ⟨?_, ?_, ?_, ?_, ?_⟩ <;> with_unfolding_all decide

/-- C20 (amended). `FindZeroPoint` is monotone in `fromIndex`; for every `limit` with
`limit ≥ len(values) - 2^63` (in particular every `limit ≥ 0`), for which the subtraction
`i - limit` cannot overflow, `FindLowestPoint` is monotone in `startIndex`; and therefore
whenever `DetectEdges(points, 3, limit)` returns for such a `limit` (with a sort meeting the
contract of `sort.Slice`) the three refined boundaries are ordered left to right:
`edge1 - Threshold ≤ edge2 + Threshold = edge3 - Threshold ≤ edge4 + Threshold`, that is
`edge1 - 10 ≤ edge2` and `edge3 ≤ edge4 + 10`. -/
theorem DetectEdges_ordered :
    (∀ (d : List ℚ) (i i2 : Nat), i ≤ i2 → i2 < d.length →
      ∃ b b2, FindZeroPoint d (i : Int) = some b ∧ FindZeroPoint d (i2 : Int) = some b2 ∧
        b ≤ b2) ∧
    (∀ (values : List ℚ) (s s2 limit : Int), 0 ≤ s → s ≤ s2 → s2 < (values.length : Int) →
      (values.length : Int) - 9223372036854775808 ≤ limit →
      ∃ r r2, FindLowestPoint values s limit = some r ∧
        FindLowestPoint values s2 limit = some r2 ∧ r ≤ r2) ∧
    (∀ (sortSlice : (Maximum → Maximum → Bool) → List Maximum → List Maximum),
      SortSliceContract sortSlice →
      ∀ (points : List ℚ) (limit e1 e2 e3 e4 : Int),
        (points.length : Int) - 9223372036854775808 ≤ limit →
        DetectEdges sortSlice points 3 limit = some (e1, e2, e3, e4) →
        e1 - Threshold ≤ e2 + Threshold ∧ e2 + Threshold = e3 - Threshold ∧
        e3 - Threshold ≤ e4 + Threshold ∧ e1 - 10 ≤ e2 ∧ e3 ≤ e4 + 10) := by
  refine ⟨?_, ?_, ?_⟩
  · intro d i i2 h hi2
    obtain ⟨b, b2, hb, hb2, _, hle, _⟩ := FindZeroPoint_mono d i i2 h hi2
    exact ⟨b, b2, hb, hb2, hle⟩
  · intro values s s2 limit h0 h h2 hl
    exact FindLowestPoint_mono values s s2 limit h0 h h2 hl
  · intro sortSlice hS points limit e1 e2 e3 e4 hl h
    obtain ⟨avg, deltas, m, m0, m1, m2, b1, b2, b3, r1, r2, r3, havg, hdeltas, hm, hm0, hm1,
      hm2, hb1, hb2, hb3, hr1, hr2, hr3, he⟩ :=
      (DetectEdges_some_iff sortSlice points 3 limit _).mp h
    obtain ⟨n0, n1, n2, rfl, hmem, h01, h12⟩ := DetectEdges_m_some sortSlice hS deltas m hm
    simp only [List.getElem?_cons_zero, List.getElem?_cons_succ, Option.some.injEq] at hm0 hm1 hm2
    subst hm0 hm1 hm2
    obtain ⟨p0, hp0, _, rfl, _, _⟩ := DetermineMaximums_mem (hmem n0 (by simp))
    obtain ⟨p1, hp1, _, rfl, _, _⟩ := DetermineMaximums_mem (hmem n1 (by simp))
    obtain ⟨p2, hp2, _, rfl, _, _⟩ := DetermineMaximums_mem (hmem n2 (by simp))
    simp only at h01 h12 hb1 hb2 hb3
    obtain ⟨c1, c2, hc1, hc2, hc0, hc12, _⟩ :=
      FindZeroPoint_mono deltas p0 p1 (by omega) (by omega)
    obtain ⟨c2', c3, hc2', hc3, hc20, hc23, _⟩ :=
      FindZeroPoint_mono deltas p1 p2 (by omega) (by omega)
    rw [hb1] at hc1
    rw [hb2] at hc2 hc2'
    rw [hb3] at hc3
    cases hc1
    cases hc2
    cases hc2'
    cases hc3
    have hs1 := FindLowestPoint_some_start hr1
    have hs2 := FindLowestPoint_some_start hr2
    have hs3 := FindLowestPoint_some_start hr3
    obtain ⟨q1, q2, hq1, hq2, hq12⟩ :=
      FindLowestPoint_mono points (b1 * 3) (b2 * 3) limit hs1.1 (by omega) hs2.2 hl
    obtain ⟨q2', q3, hq2', hq3, hq23⟩ :=
      FindLowestPoint_mono points (b2 * 3) (b3 * 3) limit hs2.1 (by omega) hs3.2 hl
    rw [hr1] at hq1
    rw [hr2] at hq2 hq2'
    rw [hr3] at hq3
    cases hq1
    cases hq2
    cases hq2'
    cases hq3
    simp only [Prod.mk.injEq, Threshold] at he
    obtain ⟨he1, he2, he3, he4⟩ := he
    subst he1 he2 he3 he4
    simp only [Threshold]
    refine ⟨by omega, by omega, by omega, by omega, by omega⟩

/-- Witness for C20 (amended): the 27-pixel profile with `limit = 10`, with refined
boundaries 2, 12 and 18. -/
theorem DetectEdges_ordered_witness :
    SortSliceContract insertionSort ∧
    ((([9, 9, 0, 9, 9, 9, 3, 3, 3, 9, 9, 9, 3, 3, 3, 9, 9, 9, 3, 3, 3, 9, 9, 9, 9, 9, 9]
      : List ℚ).length : Int) - 9223372036854775808 ≤ 10) ∧
    DetectEdges insertionSort
        [9, 9, 0, 9, 9, 9, 3, 3, 3, 9, 9, 9, 3, 3, 3, 9, 9, 9, 3, 3, 3, 9, 9, 9, 9, 9, 9] 3 10
      = some (7, 7, 17, 13) ∧
    ((7 : Int) - Threshold ≤ 7 + Threshold ∧ (7 : Int) + Threshold = 17 - Threshold ∧
      (17 : Int) - Threshold ≤ 13 + Threshold ∧ (7 : Int) - 10 ≤ 7 ∧ (17 : Int) ≤ 13 + 10) :=
  ⟨insertionSort_contract, by decide, by with_unfolding_all decide,
    DetectEdges_ordered.2.2 insertionSort insertionSort_contract
      [9, 9, 0, 9, 9, 9, 3, 3, 3, 9, 9, 9, 3, 3, 3, 9, 9, 9, 3, 3, 3, 9, 9, 9, 9, 9, 9] 10
      7 7 17 13 (by decide) (by with_unfolding_all decide)⟩

/-! ## End-to-end scenario on three rectangular dips (C16) -/

end Telescope
